import Mathlib

/-!
Verification development for the dbclean Schema Mapping & Patch-Reconciliation
Engine: a shallow embedding, in Lean 4, of the column-mapping resolver, the
semantic-diff parsers, the patch applier and the regex-contract validator of
the repository, together with theorems settling the frozen behavioural claims.

Modelling conventions:
* JavaScript strings are `JSString := List Char`; `jstr` injects Lean string
  literals.  Lines handed to the line-level parsers come from `split('\n')`
  of trimmed sections, so they contain no line terminators; the embedding is
  stated for such inputs (ASCII data, no `'\r'`).
* JavaScript objects are insertion-ordered association lists with unique keys
  (`objSet` updates in place, `objDelete` removes); this matches JS property
  order for the non-integer-like string keys the pipeline uses.
* `new RegExp`/`.test` is abstracted as a `RegexEngine`:
  `compile : JSString → Option (JSString → Bool)`, `none` modelling a regex
  string whose compilation throws.  Every theorem quantifies over the engine;
  concrete witnesses instantiate it with small engines whose behaviour on the
  concrete pattern and inputs agrees with the JS regex engine.
* Dataset rows (from `csv-parser`) are objects mapping header names to cell
  strings; a missing property (JS `undefined`) is `Option.none`.
* Floating-point display fields (`validPercentage`, `invalidPercentage`,
  built with `toFixed`/`parseFloat`) are derived output formatting only and
  are not part of any claim; they are omitted from `ValResult`.
-/

/-- JS whitespace test, for the ASCII whitespace characters that occur in the
pipeline's data (`String.prototype.trim` whitespace set restricted to ASCII). -/
def isJsSpace (c : Char) : Bool :=
  c = ' ' || c = '\t' || c = '\n' || c = '\r'

/-- A JavaScript string: a list of characters. -/
abbrev JSString := List Char

/-- Inject a Lean string literal as a `JSString`. -/
def jstr (s : String) : JSString := s.data

/-- Model of `String.prototype.trim()`: drop whitespace from both ends. -/
def jsTrim (l : JSString) : JSString :=
  ((l.dropWhile isJsSpace).reverse.dropWhile isJsSpace).reverse

/-- Prefix test on character lists (`String.prototype.startsWith`). -/
def isPre : JSString → JSString → Bool
  | [], _ => true
  | _ :: _, [] => false
  | a :: as, b :: bs => a = b && isPre as bs

/-- Substring containment (`String.prototype.includes`). -/
def containsSub (pat : JSString) : JSString → Bool
  | [] => decide (pat = [])
  | c :: rest => isPre pat (c :: rest) || containsSub pat rest

/-- Model of `String.prototype.split(sep)` for a one-character separator. -/
def splitOnChar (sep : Char) : JSString → List JSString
  | [] => [[]]
  | c :: rest =>
    if c = sep then [] :: splitOnChar sep rest
    else
      match splitOnChar sep rest with
      | [] => [[c]]
      | h :: t => (c :: h) :: t

/-- The decimal digit character for `d < 10` (and `'9'` above). -/
def digitChar (d : Nat) : Char :=
  match d with
  | 0 => '0' | 1 => '1' | 2 => '2' | 3 => '3' | 4 => '4'
  | 5 => '5' | 6 => '6' | 7 => '7' | 8 => '8' | _ => '9'

/-- Fuel-driven decimal rendering (structural so the kernel can evaluate it). -/
def natToCharsAux : Nat → Nat → JSString
  | 0, _ => []
  | fuel+1, n =>
    if n < 10 then [digitChar n]
    else natToCharsAux fuel (n / 10) ++ [digitChar (n % 10)]

/-- JS `String(n)` / template interpolation of a nonnegative integer. -/
def natToChars (n : Nat) : JSString := natToCharsAux (n + 1) n

/-- Numeric value of a digit character. -/
def digitVal (c : Char) : Nat := c.toNat - 48

/-- Decimal value of a digit list. -/
def digitsVal (l : JSString) : Nat := l.foldl (fun a c => a * 10 + digitVal c) 0

/-- JS `parseInt` restricted to the strings it is applied to in this code:
strings beginning with at least one decimal digit (guaranteed by the
`/^\d+,/` guards and by the key format `"<rowId>:<column>"`). -/
def jsParseInt (l : JSString) : Nat := digitsVal (l.takeWhile Char.isDigit)

/-- The test `/^\d+,/.test(line)`: one or more leading digits followed by a
comma (the greedy `\d+` consumes every leading digit, so the comma must sit
right after them). -/
def startsDigitsComma (l : JSString) : Bool :=
  let d := l.takeWhile Char.isDigit
  decide (d ≠ []) && decide ((l.drop d.length).head? = some ',')

/-- First index of a character (`String.prototype.indexOf`). -/
def jsIndexOfChar (c : Char) : JSString → Option Nat
  | [] => none
  | c' :: rest =>
    if c' = c then some 0 else (jsIndexOfChar c rest).map (· + 1)

/-- Model of `value.startsWith('"') && value.endsWith('"') ? value.slice(1, -1) : value`
— strip one surrounding pair of double quotes.  A single `'"'` character both
starts and ends with a quote and becomes the empty string, as in JS. -/
def stripQuotesOnce (l : JSString) : JSString :=
  if l.head? = some '"' ∧ l.getLast? = some '"' then (l.drop 1).dropLast else l

/-! ## JavaScript objects as insertion-ordered association lists -/

/-- A JS object with string keys. -/
abbrev Obj (α : Type) := List (JSString × α)

/-- Property read `o[k]` (first — unique — matching key). -/
def objGet {α : Type} : Obj α → JSString → Option α
  | [], _ => none
  | (k', v) :: rest, k => if k' = k then some v else objGet rest k

/-- Property write `o[k] = v`: update in place if the key exists (JS keeps the
original insertion position), otherwise append. -/
def objSet {α : Type} : Obj α → JSString → α → Obj α
  | [], k, v => [(k, v)]
  | (k', v') :: rest, k, v =>
    if k' = k then (k, v) :: rest else (k', v') :: objSet rest k v

/-- Property removal `delete o[k]`. -/
def objDelete {α : Type} : Obj α → JSString → Obj α
  | [], _ => []
  | (k', v') :: rest, k =>
    if k' = k then rest else (k', v') :: objDelete rest k

/-- Model of `Object.keys(o)`. -/
def objKeys {α : Type} (o : Obj α) : List JSString := o.map Prod.fst

/-- A JS object keyed by numbers (used for `correctedRows[rowId]`).  JS orders
integer-like keys ascending rather than by insertion; every theorem about this
object is lookup-based, so only the update-in-place/append semantics matter. -/
abbrev NatObj (α : Type) := List (Nat × α)

/-- Numeric-keyed property write. -/
def natObjSet {α : Type} : NatObj α → Nat → α → NatObj α
  | [], k, v => [(k, v)]
  | (k', v') :: rest, k, v =>
    if k' = k then (k, v) :: rest else (k', v') :: natObjSet rest k v

/-- Numeric-keyed property read. -/
def natObjGet {α : Type} : NatObj α → Nat → Option α
  | [], _ => none
  | (k', v) :: rest, k => if k' = k then some v else natObjGet rest k

/-! ## The quote-aware CSV line tokenizers

The repository contains two copies of `parseCSVLine` with one difference:
the architect module (`part_001`, line 1859) trims every field, the stitcher
module (`part_002`, line 150) does not.  `csvRun` is the shared state machine
(`current` accumulator, `inQuotes` flag); `doTrim` selects the variant. -/

/-- The `parseCSVLine` loop: on `'"'` toggle quoting (a doubled quote inside
quotes emits a literal quote and skips both), on an unquoted `','` finish the
field, otherwise accumulate the character; the last field is always pushed. -/
def csvRun (doTrim : Bool) : JSString → JSString → Bool → List JSString
  | [], cur, _ => [if doTrim then jsTrim cur else cur]
  | '"' :: '"' :: rest2, cur, true => csvRun doTrim rest2 (cur ++ ['"']) true
  | '"' :: rest, cur, true => csvRun doTrim rest cur false
  | '"' :: rest, cur, false => csvRun doTrim rest cur true
  | ',' :: rest, cur, false =>
    (if doTrim then jsTrim cur else cur) :: csvRun doTrim rest [] false
  | c :: rest, cur, inQ => csvRun doTrim rest (cur ++ [c]) inQ

/-- Tokenizer `parseCSVLine` of the architect module (`part_001`): fields are trimmed. -/
def parseCSVLineA (l : JSString) : List JSString := csvRun true l [] false

/-- Tokenizer `parseCSVLine` of the stitcher module (`part_002`): fields kept verbatim. -/
def parseCSVLineS (l : JSString) : List JSString := csvRun false l [] false

/-! ## Schema line parsing (`part_001`: `parseSchemaLine`, lines 1899–1930) -/

/-- Index at which `line.match(/,(\^[^,]*(?:,.*)?$)/)` matches: the JS engine
scans left to right, and at a given start the pattern requires a literal `','`
followed by `'^'`; the tail `[^,]*(?:,.*)?$` then always reaches end of line
(for lines without line terminators, which is what `split('\n')` + `trim()`
feeds in).  So the match position is the first occurrence of `",^"`. -/
def findCommaCaret : JSString → Option Nat
  | [] => none
  | c :: rest =>
    if c = ',' ∧ rest.head? = some '^' then some 0
    else (findCommaCaret rest).map (· + 1)

/-- Model of `String.prototype.lastIndexOf(sub)`: the largest start position at which
`sub` occurs, scanning candidates in ascending order and keeping the last. -/
def jsLastIndexOf (l sub : JSString) : Option Nat :=
  (List.range (l.length + 1)).foldl
    (fun acc j => if isPre sub (l.drop j) then some j else acc) none

/-- One parsed schema definition line:
`(data_title, data_type, data_description, data_example, data_regex)`. -/
structure SchemaCol where
  name : JSString
  dataType : JSString
  description : JSString
  exampleVal : JSString
  regex : JSString
deriving DecidableEq, Repr, Inhabited

/-- Model of `parseSchemaLine` (`part_001`, line 1899): isolate the trailing regex via
`line.match(/,(\^[^,]*(?:,.*)?$)/)` — `regex = match[1].trim()`, and the CSV
prefix is `line.substring(0, line.lastIndexOf(match[0]))`; with no match the
regex is empty and the whole line is the CSV part.  The prefix is tokenized by
the trimming `parseCSVLine` and the first four fields are trimmed again
(missing fields default to the empty string); an empty token list would yield
`none`, as the JS returns `null` when `parts.length < 1`. -/
def parseSchemaLine (line : JSString) : Option SchemaCol :=
  let mi := findCommaCaret line
  let regex : JSString :=
    match mi with
    | some i => jsTrim (line.drop (i + 1))
    | none => []
  let csvPart : JSString :=
    match mi with
    | some i => line.take ((jsLastIndexOf line (line.drop i)).getD 0)
    | none => line
  match parseCSVLineA csvPart with
  | [] => none
  | p0 :: rest =>
    some { name := jsTrim p0
           dataType := if rest.length ≥ 1 then jsTrim (rest.getD 0 []) else []
           description := if rest.length ≥ 2 then jsTrim (rest.getD 1 []) else []
           exampleVal := if rest.length ≥ 3 then jsTrim (rest.getD 2 []) else []
           regex := regex }

/-! ## Column mapping construction (`part_001`: `createColumnMapping`,
lines 1782–1837) -/

/-- One value of the persisted `column_mapping.json` object. -/
structure MapEntry where
  name : JSString
  isExcluded : Bool
  uniqueFlag : Bool
  index : Nat
  dataType : JSString
  description : JSString
  exampleVal : JSString
  regex : JSString
deriving DecidableEq, Repr, Inhabited

/-- The mapping value built for position `i` from the schema entry paired with
it (`part_001`, lines 1793–1802 and 1826–1835): flags come from membership of
the proposed name in the `EXCLUDE`/`UNIQUE` marker lists, `index = i + 1`. -/
def mkMappedEntry (c : SchemaCol) (excludedColumns uniqueColumns : List JSString)
    (i : Nat) : MapEntry :=
  { name := c.name
    isExcluded := decide (c.name ∈ excludedColumns)
    uniqueFlag := decide (c.name ∈ uniqueColumns)
    index := i + 1
    dataType := c.dataType
    description := c.description
    exampleVal := c.exampleVal
    regex := c.regex }

/-- The synthetic value for an original column beyond the proposed schema
(`part_001`, lines 1808–1818): name `UNMAPPED_<i>`, empty metadata and —
notably — `regex = ''`, not the documented catch-all `'^.*$'`. -/
def unmappedEntry (i : Nat) : MapEntry :=
  { name := jstr "UNMAPPED_" ++ natToChars i
    isExcluded := false
    uniqueFlag := false
    index := i + 1
    dataType := []
    description := []
    exampleVal := []
    regex := [] }

/-- The ordered key/value pairs written into the `columnMapping` object by the
three loops of `createColumnMapping`: positions below `min(N, M)` pair the
original header with the proposed schema entry; if there are more original
headers the tail gets `UNMAPPED_<i>` values; if there are more schema entries
the tail gets synthetic `MISSING_ORIGINAL_<i>` keys. -/
def mappingPairs (originalColumns : List JSString) (newColumns : List SchemaCol)
    (excludedColumns uniqueColumns : List JSString) : List (JSString × MapEntry) :=
  let minLength := min originalColumns.length newColumns.length
  let p1 := (List.range minLength).map (fun i =>
    (originalColumns.getD i [],
      mkMappedEntry (newColumns.getD i default) excludedColumns uniqueColumns i))
  if originalColumns.length > newColumns.length then
    p1 ++ (List.range' newColumns.length (originalColumns.length - newColumns.length)).map
      (fun i => (originalColumns.getD i [], unmappedEntry i))
  else if newColumns.length > originalColumns.length then
    p1 ++ (List.range' originalColumns.length (newColumns.length - originalColumns.length)).map
      (fun i =>
        (jstr "MISSING_ORIGINAL_" ++ natToChars i,
          mkMappedEntry (newColumns.getD i default) excludedColumns uniqueColumns i))
  else p1

/-- Model of `createColumnMapping` (`part_001`, lines 1782–1837), given the already
extracted header list and successfully parsed schema entries: the three
assignment loops write `mappingPairs` into a fresh JS object in order; a
repeated key therefore overwrites the earlier property instead of adding a
second entry. -/
def createColumnMapping (originalColumns : List JSString) (newColumns : List SchemaCol)
    (excludedColumns uniqueColumns : List JSString) : Obj MapEntry :=
  (mappingPairs originalColumns newColumns excludedColumns uniqueColumns).foldl
    (fun m p => objSet m p.1 p.2) []

/-- Model of `findColumnIndexByNewName` (`part_002`, line 249): first mapping entry
whose `name` equals the requested semantic name, returning `info.index - 1`;
the JS returns `-1` for "not found", which the callers test with `=== -1`, so
an entry with `index = 0` is indistinguishable from absence — both are `none`
here. -/
def findColumnIndexByNewName (columnMapping : Obj MapEntry) (newName : JSString) :
    Option Nat :=
  match columnMapping.find? (fun p => p.2.name = newName) with
  | some p => if p.2.index = 0 then none else some (p.2.index - 1)
  | none => none

/-! ## Semantic-diff parsing (`part_002`: `parseArchitectSemanticDiff`,
lines 106–145, and `parseSemanticDiffChanges`, lines 194–234) -/

/-- The two textual "rows unchanged" sentinels skipped by both parsers. -/
def isExistingDataLine (t : JSString) : Bool :=
  containsSub (jstr "… Existing Data …") t || containsSub (jstr "... Existing Data ...") t

/-- Model of `processLine.replace(/^```FLAGGED[^`]*```/, '')`: after the literal
"```FLAGGED" tag, `[^`]*` runs to the first backtick, where three backticks
must follow; otherwise the regex does not match and `replace` is a no-op. -/
def stripFlagged (t : JSString) : JSString :=
  if isPre (jstr "```FLAGGED") t then
    let afterTag := t.drop 10
    let meta := afterTag.takeWhile (fun c => c ≠ '`')
    let rest := afterTag.drop meta.length
    if isPre (jstr "```") rest then rest.drop 3 else t
  else t

/-- One loop iteration of `parseArchitectSemanticDiff`: trim, skip blank and
"Existing Data" lines, strip a `FLAGGED` wrapper (re-trimming), and for lines
matching `/^\d+,/` tokenize with the stitcher's `parseCSVLine`; the first
field (exactly the leading digits) is the rowId, the rest are the values. -/
def processArchitectLine (line : JSString) : Option (Nat × List JSString) :=
  let t := jsTrim line
  if t = [] then none
  else if isExistingDataLine t then none
  else
    let p := if isPre (jstr "```FLAGGED") t then jsTrim (stripFlagged t) else t
    if startsDigitsComma p then
      match parseCSVLineS p with
      | [] => none
      | f0 :: rest => some (jsParseInt f0, rest)
    else none

/-- One fold step of `parseArchitectSemanticDiff`:
`correctedRows[rowId] = values` for a parseable line, no-op otherwise. -/
def archStep (acc : NatObj (List JSString)) (line : JSString) :
    NatObj (List JSString) :=
  match processArchitectLine line with
  | some rv => natObjSet acc rv.1 rv.2
  | none => acc

/-- Model of `parseArchitectSemanticDiff` (`part_002`, line 106): fold every line into
the `correctedRows` object via `correctedRows[rowId] = values` — a repeated
rowId overwrites the earlier assignment (last write wins). -/
def parseArchitectSemanticDiff (semanticDiff : JSString) : NatObj (List JSString) :=
  (splitOnChar '\n' semanticDiff).foldl archStep []

/-- A scoped (single-column) correction `{rowId, correctedValue}`. -/
structure ScopedChange where
  rowId : Nat
  correctedValue : JSString
deriving DecidableEq, Repr, Inhabited

/-- One loop iteration of `parseSemanticDiffChanges`: trim, skip blank and
"Existing Data" lines, and for lines matching `/^\d+,/` split at the first
comma (`indexOf(',')`, which the guard puts right after the leading digits);
the remainder is the corrected value with one pair of surrounding quotes
stripped. -/
def processScopedLine (line : JSString) : Option ScopedChange :=
  let t := jsTrim line
  if t = [] then none
  else if isExistingDataLine t then none
  else if startsDigitsComma t then
    match jsIndexOfChar ',' t with
    | some commaIdx =>
      if commaIdx > 0 then
        some { rowId := jsParseInt (t.take commaIdx)
               correctedValue := stripQuotesOnce (t.drop (commaIdx + 1)) }
      else none
    | none => none
  else none

/-- One fold step of `parseSemanticDiffChanges`: push the parsed change. -/
def scopedStep (acc : List ScopedChange) (line : JSString) : List ScopedChange :=
  match processScopedLine line with
  | some c => acc ++ [c]
  | none => acc

/-- Model of `parseSemanticDiffChanges` (`part_002`, line 194): push one change per
parseable line onto the `changes` array, in order — no deduplication. -/
def parseSemanticDiffChanges (semanticDiff : JSString) : List ScopedChange :=
  (splitOnChar '\n' semanticDiff).foldl scopedStep []

/-! ## The Applier's header-rename step (`part_002`: `createStitchedCsv`,
lines 1222–1266) -/

/-- A dataset row: a JS object from live header name to cell value. -/
abbrev Row := Obj JSString

/-- A dataset: the parsed CSV rows in order. -/
abbrev Dataset := List Row

/-- Stable insertion by ascending `index`, modelling
`Object.entries(columnMapping).sort((a, b) => a[1].index - b[1].index)`. -/
def insertByIndex (p : JSString × MapEntry) :
    List (JSString × MapEntry) → List (JSString × MapEntry)
  | [] => [p]
  | q :: rest =>
    if p.2.index < q.2.index then p :: q :: rest else q :: insertByIndex p rest

/-- The sorted mapping entries (insertion sort, stable like the JS sort). -/
def sortByIndex (l : List (JSString × MapEntry)) : List (JSString × MapEntry) :=
  l.foldr insertByIndex []

/-- Build `headerMapping` (`part_002`, lines 1227–1256): for every mapping
entry in index order whose 0-based `index - 1` is a valid header position,
map the header actually found at that position to the semantic name — both on
a textual match of the original key and on a mismatch (position wins). -/
def buildHeaderMapping (sortedMapping : List (JSString × MapEntry))
    (dataHeaders : List JSString) : Obj JSString :=
  sortedMapping.foldl
    (fun hm p =>
      if 1 ≤ p.2.index ∧ p.2.index - 1 < dataHeaders.length then
        objSet hm (dataHeaders.getD (p.2.index - 1) []) p.2.name
      else hm)
    []

/-- Apply `headerMapping` to one row (`part_002`, lines 1259–1266): for each
pair, if the old header is present, `row[newHeader] = row[oldHeader]` then
`delete row[oldHeader]` — when the two names coincide this deletes the
property outright. -/
def renameRow (headerMapping : Obj JSString) (row : Row) : Row :=
  headerMapping.foldl
    (fun r p =>
      match objGet r p.1 with
      | some v => objDelete (objSet r p.2 v) p.1
      | none => r)
    row

/-- The whole header-rename step of `createStitchedCsv`: sort the mapping,
build `headerMapping` against `Object.keys(data[0])`, rewrite every row. -/
def renameStep (columnMapping : Obj MapEntry) (data : Dataset) : Dataset :=
  let dataHeaders := objKeys (data.headD [])
  let hm := buildHeaderMapping (sortByIndex columnMapping) dataHeaders
  data.map (renameRow hm)

/-! ## Architect row corrections (`part_002`: `createStitchedCsv`,
lines 1288–1316) -/

/-- Apply one architect row correction.  `newDataHeaders` is
`Object.keys(data[0])` computed after the rename step; `rowId` is 1-based and
an out-of-range id leaves the dataset untouched.  The three branches follow
the source: full overwrite when the value count matches the header count,
partial apply when smaller, truncation to the header count when larger. -/
def applyArchitectRow (data : Dataset) (newDataHeaders : List JSString)
    (rowId : Nat) (values : List JSString) : Dataset :=
  if 1 ≤ rowId ∧ rowId - 1 < data.length then
    let di := rowId - 1
    let row := data.getD di []
    let row' :=
      if values.length = newDataHeaders.length then
        (List.range values.length).foldl
          (fun r i => objSet r (newDataHeaders.getD i []) (values.getD i [])) row
      else if values.length < newDataHeaders.length then
        (List.range values.length).foldl
          (fun r i => objSet r (newDataHeaders.getD i []) (values.getD i [])) row
      else
        (List.range newDataHeaders.length).foldl
          (fun r i => objSet r (newDataHeaders.getD i []) (values.getD i [])) row
    data.set di row'
  else data

/-! ## Regex contract validation (`part_002` lines 299–394, `src/cleaner.js`
lines 412–438) -/

/-- An abstract JS regex engine: `none` models `new RegExp(r)` throwing. -/
abbrev RegexEngine := JSString → Option (JSString → Bool)

/-- Model of `isEmptyValue` of the stitcher (`part_002`, line 299): `null`/`undefined`
(both `Option.none` here), the empty string, the literal tokens `'NaN'`,
`'nan'`, `'undefined'`, or an all-whitespace string.  Unlike the cleaner's
copy, the literal tokens `'null'` and `'NULL'` are NOT in this set. -/
def isEmptyValueSt (value : Option JSString) : Bool :=
  match value with
  | none => true
  | some s =>
    decide (s = []) || decide (s = jstr "NaN") || decide (s = jstr "nan") ||
      decide (s = jstr "undefined") || decide (jsTrim s = [])

/-- Model of `isEmptyValue` of the cleaner (`src/cleaner.js`, line 412): additionally
treats the literal tokens `'null'` and `'NULL'` as empty. -/
def isEmptyValueCl (value : Option JSString) : Bool :=
  match value with
  | none => true
  | some s =>
    decide (s = []) || decide (s = jstr "null") || decide (s = jstr "NULL") ||
      decide (s = jstr "NaN") || decide (s = jstr "nan") ||
      decide (s = jstr "undefined") || decide (jsTrim s = [])

/-- Model of `testRegexMatch` of the stitcher (`part_002`, line 309): a falsy (empty)
or catch-all `'^.*$'` regex validates everything; an empty value (stitcher
sense) validates; a regex that fails to compile validates (fail-open);
otherwise the compiled regex is tested against the value. -/
def testRegexMatchSt (compile : RegexEngine) (value : Option JSString)
    (regex : JSString) : Bool :=
  if regex = [] ∨ regex = jstr "^.*$" then true
  else if isEmptyValueSt value then true
  else
    match compile regex with
    | none => true
    | some test => test (value.getD [])

/-- Model of `testRegexMatch` of the cleaner (`src/cleaner.js`, line 422): identical
except that it uses the cleaner's `isEmptyValue`. -/
def testRegexMatchCl (compile : RegexEngine) (value : Option JSString)
    (regex : JSString) : Bool :=
  if regex = [] ∨ regex = jstr "^.*$" then true
  else if isEmptyValueCl value then true
  else
    match compile regex with
    | none => true
    | some test => test (value.getD [])

/-- Per-column counters accumulated by `validateDataAgainstRegex`'s row loop;
`invalidRows` stores `{rowId, value}` pairs (the value is a present string,
since `undefined` cells count as empty). -/
structure ValStats where
  validCount : Nat
  invalidCount : Nat
  emptyCount : Nat
  invalidRows : List (Nat × JSString)
deriving DecidableEq, Repr, Inhabited

/-- One row of the validation loop (`part_002`, lines 361–373): an empty value
counts as empty AND valid; a regex match counts as valid; otherwise the row is
invalid and `{rowId: idx + 1, value}` is recorded. -/
def valStep (compile : RegexEngine) (columnHeader regex : JSString)
    (st : ValStats) (idxRow : Nat × Row) : ValStats :=
  let value := objGet idxRow.2 columnHeader
  if isEmptyValueSt value then
    { st with emptyCount := st.emptyCount + 1, validCount := st.validCount + 1 }
  else if testRegexMatchSt compile value regex then
    { st with validCount := st.validCount + 1 }
  else
    { st with
      invalidCount := st.invalidCount + 1
      invalidRows := st.invalidRows ++ [(idxRow.1 + 1, value.getD [])] }

/-- The full row loop for one column, rows enumerated from 0. -/
def validateColumn (compile : RegexEngine) (data : Dataset)
    (columnHeader regex : JSString) : ValStats :=
  data.enum.foldl (valStep compile columnHeader regex) ⟨0, 0, 0, []⟩

/-- One entry of the validation result object (percentages, being
`toFixed`/`parseFloat` display floats, are not modelled). -/
structure ValResult where
  originalColumnName : JSString
  columnHeader : JSString
  regex : JSString
  totalCount : Nat
  validCount : Nat
  invalidCount : Nat
  emptyCount : Nat
  invalidRows : List (Nat × JSString)
deriving DecidableEq, Repr, Inhabited

/-- Model of `validateDataAgainstRegex` (`part_002`, line 330): for every mapping entry
that is not excluded, whose regex is not the catch-all `'^.*$'` (an empty
regex is NOT skipped), and whose 0-based `index - 1` addresses an existing
data header, run the row loop on the column found at that position and store
the statistics in the results object under the semantic name. -/
def validateDataAgainstRegex (compile : RegexEngine) (data : Dataset)
    (columnMapping : Obj MapEntry) : Obj ValResult :=
  let dataHeaders := objKeys (data.headD [])
  columnMapping.foldl
    (fun results p =>
      let info := p.2
      if info.isExcluded then results
      else if info.regex = jstr "^.*$" then results
      else if 1 ≤ info.index ∧ info.index - 1 < dataHeaders.length then
        let columnHeader := dataHeaders.getD (info.index - 1) []
        let st := validateColumn compile data columnHeader info.regex
        objSet results info.name
          { originalColumnName := p.1
            columnHeader := columnHeader
            regex := info.regex
            totalCount := data.length
            validCount := st.validCount
            invalidCount := st.invalidCount
            emptyCount := st.emptyCount
            invalidRows := st.invalidRows }
      else results)
    []

/-! ## Cleaner cell corrections (`part_002`: `applyCleanerChanges`,
lines 469–516) -/

/-- One ledger entry (`changeInfo`) recorded per processed cell correction. -/
structure ChangeInfo where
  filename : JSString
  columnName : JSString
  columnHeader : JSString
  columnIndex : Nat
  rowId : Nat
  currentValue : JSString
  correctedValue : JSString
  isFlagged : Bool
  flagReason : JSString
  needsChange : Bool
  unableToFix : Bool
deriving DecidableEq, Repr, Inhabited

/-- One iteration of the per-file change loop (`part_002`, lines 471–513):
for an in-range 1-based rowId, read the current cell (defaulting a missing
property to `''`), strip one pair of quotes from the corrected value, set
`needsChange` iff the strings differ, always record a `ChangeInfo` (flags
start out false), and patch the cell only when `needsChange`. -/
def applyOneCleanerChange (filename columnName columnHeader : JSString)
    (columnIndex : Nat) (st : Dataset × List ChangeInfo) (c : ScopedChange) :
    Dataset × List ChangeInfo :=
  let data := st.1
  if 1 ≤ c.rowId ∧ c.rowId - 1 < data.length then
    let di := c.rowId - 1
    let row := data.getD di []
    let currentValue := (objGet row columnHeader).getD []
    let cleanCorrectedValue := stripQuotesOnce c.correctedValue
    let needsChange := decide (currentValue ≠ cleanCorrectedValue)
    let changeInfo : ChangeInfo :=
      { filename := filename
        columnName := columnName
        columnHeader := columnHeader
        columnIndex := columnIndex
        rowId := c.rowId
        currentValue := currentValue
        correctedValue := cleanCorrectedValue
        isFlagged := false
        flagReason := []
        needsChange := needsChange
        unableToFix := false }
    let data' :=
      if needsChange then data.set di (objSet row columnHeader cleanCorrectedValue)
      else data
    (data', st.2 ++ [changeInfo])
  else st

/-- The change loop for one cleaner output file targeting one column, from a
given dataset and an already accumulated `allChanges` ledger. -/
def applyChangesForColumn (filename columnName columnHeader : JSString)
    (columnIndex : Nat) (data : Dataset) (allChanges : List ChangeInfo)
    (changes : List ScopedChange) : Dataset × List ChangeInfo :=
  changes.foldl (applyOneCleanerChange filename columnName columnHeader columnIndex)
    (data, allChanges)

/-! ## Post-correction flagging (`part_002`: `applyCleanerChanges`,
lines 524–577) -/

/-- The string key `` `${rowId}:${columnName}` `` of `invalidRowMap`. -/
def encodeKey (rowId : Nat) (columnName : JSString) : JSString :=
  natToChars rowId ++ jstr ":" ++ columnName

/-- The flag reason `` `Value '${v}' does not match regex: ${r}` `` — note
the capital `V`. -/
def mkReason (v r : JSString) : JSString :=
  jstr "Value \x27" ++ v ++ jstr "\x27 does not match regex: " ++ r

/-- The `(key, {value, reason})` pairs inserted into `invalidRowMap`, in
iteration order over the post-cleaner validation results. -/
def irmPairs (postValidation : Obj ValResult) : List (JSString × (JSString × JSString)) :=
  (postValidation.map (fun p =>
    p.2.invalidRows.map (fun ir =>
      (encodeKey ir.1 p.1, (ir.2, mkReason ir.2 p.2.regex))))).flatten

/-- Model of `invalidRowMap` (`part_002`, lines 528–537): a JS `Map` filled with
`irmPairs`; `Map.set` updates in place like an object property write. -/
def invalidRowMap (postValidation : Obj ValResult) : Obj (JSString × JSString) :=
  (irmPairs postValidation).foldl (fun m p => objSet m p.1 p.2) []

/-- The update pass (`part_002`, lines 540–548): every recorded change whose
`rowId:columnName` key is in `invalidRowMap` is marked flagged/unable-to-fix
with the map's reason; other records are untouched. -/
def updateFlags (irm : Obj (JSString × JSString)) (allChanges : List ChangeInfo) :
    List ChangeInfo :=
  allChanges.map (fun ci =>
    match objGet irm (encodeKey ci.rowId ci.columnName) with
    | some vr => { ci with isFlagged := true, flagReason := vr.2, unableToFix := true }
    | none => ci)

/-- Synthesis of one record (`part_002`, lines 552–576) for an invalid cell
the cleaner never touched: skip keys already logged; recover `rowId` and
`columnName` by `key.split(':')` (a column name containing `':'` is therefore
truncated at its first colon); drop the record if the recovered name has no
mapping entry (`findColumnIndexByNewName === -1`). -/
def synthOne (loggedKeys : List JSString) (columnMapping : Obj MapEntry)
    (data : Dataset) (key : JSString) (vr : JSString × JSString) : Option ChangeInfo :=
  if key ∈ loggedKeys then none
  else
    let parts := splitOnChar ':' key
    let rowId := jsParseInt (parts.getD 0 [])
    let columnName := parts.getD 1 []
    match findColumnIndexByNewName columnMapping columnName with
    | none => none
    | some columnIndex =>
      let columnHeaders := objKeys (data.headD [])
      some
        { filename := jstr "N/A (Regex Validation)"
          columnName := columnName
          columnHeader := columnHeaders.getD columnIndex []
          columnIndex := columnIndex
          rowId := rowId
          currentValue := vr.1
          correctedValue := vr.1
          isFlagged := true
          flagReason := vr.2
          needsChange := false
          unableToFix := true }

/-- One fold step of the synthesis pass: append the synthesized record. -/
def synthStep (loggedKeys : List JSString) (columnMapping : Obj MapEntry)
    (data : Dataset) (acc : List ChangeInfo) (p : JSString × (JSString × JSString)) :
    List ChangeInfo :=
  match synthOne loggedKeys columnMapping data p.1 p.2 with
  | some r => acc ++ [r]
  | none => acc

/-- The synthesis pass over `invalidRowMap`, appending the new records. -/
def synthesized (irm : Obj (JSString × JSString)) (loggedKeys : List JSString)
    (columnMapping : Obj MapEntry) (data : Dataset) : List ChangeInfo :=
  irm.foldl (synthStep loggedKeys columnMapping data) []

/-- The whole flagging phase (`part_002`, lines 524–577): build
`invalidRowMap` from the post-cleaner validation, update the recorded changes
in place, then append synthesized records for unlogged invalid cells
(`loggedKeys` is taken from the records present before synthesis; the update
pass does not change keys). -/
def flagChanges (allChanges : List ChangeInfo) (postValidation : Obj ValResult)
    (columnMapping : Obj MapEntry) (data : Dataset) : List ChangeInfo :=
  let irm := invalidRowMap postValidation
  let loggedKeys := allChanges.map (fun ci => encodeKey ci.rowId ci.columnName)
  updateFlags irm allChanges ++ synthesized irm loggedKeys columnMapping data


/-- The amended parsing contract for a schema definition line, stated from the
claim's words with "last occurrence" replaced by "first occurrence": given the
index `i` of the first `",^"` in the line, the regex field is the (trimmed)
substring from the `'^'` to end of line, and the prefix before the comma is
tokenized as a quote-aware comma-separated record giving
`(name, dataType, description, example)` (missing fields empty). -/
def schemaLineSplitAt (line : JSString) (i : Nat) : SchemaCol :=
  let parts := parseCSVLineA (line.take i)
  { name := jsTrim (parts.getD 0 [])
    dataType := if parts.length ≥ 2 then jsTrim (parts.getD 1 []) else []
    description := if parts.length ≥ 3 then jsTrim (parts.getD 2 []) else []
    exampleVal := if parts.length ≥ 4 then jsTrim (parts.getD 3 []) else []
    regex := jsTrim (line.drop (i + 1)) }

/-- The behaviour of the JS regex `/^\d+$/` (one or more digits, anchored),
used to instantiate the abstract engine at the counterexample's inputs. -/
def digitsOnlyTest (s : JSString) : Bool := decide (s ≠ []) && s.all Char.isDigit

/-- An engine that compiles exactly the pattern `^\d+$`, to `digitsOnlyTest`. -/
def engineDigits : RegexEngine := fun r =>
  if r = jstr "^\x5cd+$" then some digitsOnlyTest else none

/-- The loop invariant of the per-column validation fold: counts balance the
number of processed rows, empties are a subset of valids, `invalidRows`
matches `invalidCount`, and every recorded rowId is within `1..R`. -/
def ValInv (R processed : Nat) (st : ValStats) : Prop :=
  st.validCount + st.invalidCount = processed ∧
  st.emptyCount ≤ st.validCount ∧
  st.invalidRows.length = st.invalidCount ∧
  ∀ p ∈ st.invalidRows, 1 ≤ p.1 ∧ p.1 ≤ R

/-! ## Helper lemmas about the JS object model -/

theorem objGet_objSet {α : Type} (m : Obj α) (k : JSString) (v : α) (q : JSString) :
    objGet (objSet m k v) q = if k = q then some v else objGet m q := by
  induction m with
  | nil => simp [objSet, objGet]
  | cons p rest ih =>
    obtain ⟨k', v'⟩ := p
    simp only [objSet]
    by_cases hk : k' = k
    · subst hk
      simp only [if_pos rfl, objGet]
      by_cases hq : k' = q
      · simp [hq]
      · simp [hq]
    · simp only [if_neg hk, objGet]
      by_cases hq : k' = q
      · subst hq
        have hkq : ¬ k = k' := fun h => hk h.symm
        simp [hkq]
      · simp [hq, ih]

theorem natObjGet_natObjSet {α : Type} (m : NatObj α) (k : Nat) (v : α) (q : Nat) :
    natObjGet (natObjSet m k v) q = if k = q then some v else natObjGet m q := by
  induction m with
  | nil => simp [natObjSet, natObjGet]
  | cons p rest ih =>
    obtain ⟨k', v'⟩ := p
    simp only [natObjSet]
    by_cases hk : k' = k
    · subst hk
      simp only [if_pos rfl, natObjGet]
      by_cases hq : k' = q
      · simp [hq]
      · simp [hq]
    · simp only [if_neg hk, natObjGet]
      by_cases hq : k' = q
      · subst hq
        have hkq : ¬ k = k' := fun h => hk h.symm
        simp [hkq]
      · simp [hq, ih]

theorem objSet_eq_append {α : Type} (m : Obj α) (k : JSString) (v : α)
    (h : k ∉ objKeys m) : objSet m k v = m ++ [(k, v)] := by
  induction m with
  | nil => simp [objSet]
  | cons p rest ih =>
    obtain ⟨a, b⟩ := p
    simp only [objKeys, List.map_cons, List.mem_cons, not_or] at h
    have hne : ¬ a = k := fun he => h.1 he.symm
    have hrec := ih h.2
    simp only [objSet, if_neg hne, hrec, List.cons_append]

theorem foldl_objSet_eq_append {α : Type} (pairs : List (JSString × α)) :
    ∀ m : Obj α, (objKeys m ++ pairs.map Prod.fst).Nodup →
      pairs.foldl (fun m p => objSet m p.1 p.2) m = m ++ pairs := by
  induction pairs with
  | nil => simp
  | cons p rest ih =>
    intro m hnd
    have hk : p.1 ∉ objKeys m := by
      intro hmem
      have hdisj := List.disjoint_of_nodup_append hnd
      exact hdisj hmem (List.mem_map_of_mem Prod.fst (List.mem_cons_self _ _))
    have hnd2 : (objKeys (m ++ [(p.1, p.2)]) ++ rest.map Prod.fst).Nodup := by
      simp only [objKeys, List.map_append, List.map_cons, List.map_nil] at hnd ⊢
      have heq : (m.map Prod.fst ++ [p.1]) ++ rest.map Prod.fst
          = m.map Prod.fst ++ (p.1 :: rest.map Prod.fst) := by simp
      rw [heq]
      exact hnd
    rw [List.foldl_cons, objSet_eq_append m p.1 p.2 hk, ih (m ++ [(p.1, p.2)]) hnd2]
    simp

theorem objGet_eq_of_mem_nodup {α : Type} {l : Obj α} {k : JSString} {v : α}
    (hnd : (objKeys l).Nodup) (hmem : (k, v) ∈ l) : objGet l k = some v := by
  induction l with
  | nil => simp at hmem
  | cons p rest ih =>
    obtain ⟨k', v'⟩ := p
    simp only [objKeys, List.map_cons, List.nodup_cons] at hnd
    rcases List.mem_cons.mp hmem with h | h
    · rw [Prod.mk.injEq] at h
      obtain ⟨h1, h2⟩ := h
      subst h1; subst h2
      simp [objGet]
    · have hne : k' ≠ k := by
        intro he
        subst he
        exact hnd.1 (List.mem_map_of_mem Prod.fst h)
      simp [objGet, hne, ih hnd.2 h]

theorem mem_objSet {α : Type} {m : Obj α} {k q : JSString} {v w : α}
    (h : (q, w) ∈ objSet m k v) : (q, w) ∈ m ∨ ((q, w) = (k, v)) := by
  induction m with
  | nil =>
    simp only [objSet] at h
    simp at h
    exact Or.inr (by simp [h])
  | cons p rest ih =>
    obtain ⟨k', v'⟩ := p
    simp only [objSet] at h
    by_cases hk : k' = k
    · rw [if_pos hk] at h
      rcases List.mem_cons.mp h with h' | h'
      · exact Or.inr h'
      · exact Or.inl (List.mem_cons_of_mem _ h')
    · rw [if_neg hk] at h
      rcases List.mem_cons.mp h with h' | h'
      · exact Or.inl (List.mem_cons.mpr (Or.inl h'))
      · rcases ih h' with h'' | h''
        · exact Or.inl (List.mem_cons_of_mem _ h'')
        · exact Or.inr h''

theorem natObj_nodup_set {α : Type} (m : NatObj α) (k : Nat) (v : α)
    (h : (m.map Prod.fst).Nodup) : ((natObjSet m k v).map Prod.fst).Nodup := by
  induction m with
  | nil => simp [natObjSet]
  | cons p rest ih =>
    obtain ⟨k', v'⟩ := p
    simp only [List.map_cons, List.nodup_cons] at h
    simp only [natObjSet]
    by_cases hk : k' = k
    · subst hk
      simpa using And.intro h.1 h.2
    · simp only [if_neg hk, List.map_cons, List.nodup_cons]
      refine ⟨?_, ih h.2⟩
      intro hmem
      rcases List.mem_map.mp hmem with ⟨q, hq, hfst⟩
      obtain ⟨qk, qv⟩ := q
      have hcase : (qk, qv) ∈ rest ∨ ((qk, qv) = (k, v)) := by
        clear ih hmem h
        induction rest with
        | nil =>
          simp only [natObjSet] at hq
          simp at hq
          exact Or.inr (by simp [hq])
        | cons r rs ihr =>
          obtain ⟨rk, rv⟩ := r
          simp only [natObjSet] at hq
          by_cases hrk : rk = k
          · rw [if_pos hrk] at hq
            rcases List.mem_cons.mp hq with h' | h'
            · exact Or.inr h'
            · exact Or.inl (List.mem_cons_of_mem _ h')
          · rw [if_neg hrk] at hq
            rcases List.mem_cons.mp hq with h' | h'
            · exact Or.inl (List.mem_cons.mpr (Or.inl h'))
            · rcases ihr h' with h'' | h''
              · exact Or.inl (List.mem_cons_of_mem _ h'')
              · exact Or.inr h''
      simp only at hfst
      subst hfst
      rcases hcase with h' | h'
      · exact h.1 (List.mem_map_of_mem Prod.fst h')
      · rw [Prod.mk.injEq] at h'
        exact hk h'.1

theorem digitChar_isDigit (d : Nat) : (digitChar d).isDigit = true := by
  match d with
  | 0 | 1 | 2 | 3 | 4 | 5 | 6 | 7 | 8 => decide
  | n + 9 => rfl

theorem natToCharsAux_congr :
    ∀ f1 f2 n, n < f1 → n < f2 → natToCharsAux f1 n = natToCharsAux f2 n := by
  intro f1
  induction f1 with
  | zero => intro f2 n h; omega
  | succ f ih =>
    intro f2 n h1 h2
    match f2, h2 with
    | f2' + 1, h2 =>
      simp only [natToCharsAux]
      by_cases hn : n < 10
      · simp [hn]
      · simp only [if_neg hn]
        have hd : n / 10 < f := by omega
        have hd2 : n / 10 < f2' := by omega
        rw [ih f2' (n / 10) hd hd2]

theorem natToChars_lt (n : Nat) (hn : n < 10) : natToChars n = [digitChar n] := by
  show natToCharsAux (n + 1) n = _
  simp [natToCharsAux, hn]

theorem natToChars_ge (n : Nat) (hn : ¬ n < 10) :
    natToChars n = natToChars (n / 10) ++ [digitChar (n % 10)] := by
  show natToCharsAux (n + 1) n = _
  simp only [natToCharsAux, if_neg hn]
  rw [natToCharsAux_congr n (n / 10 + 1) (n / 10) (by omega) (by omega)]
  rfl

theorem natToChars_all_digits (n : Nat) : ∀ c ∈ natToChars n, c.isDigit = true := by
  induction n using Nat.strong_induction_on with
  | _ n ih =>
    by_cases hn : n < 10
    · rw [natToChars_lt n hn]
      simp only [List.mem_singleton]
      rintro c rfl
      exact digitChar_isDigit n
    · rw [natToChars_ge n hn]
      simp only [List.mem_append, List.mem_singleton]
      rintro c (hc | rfl)
      · exact ih (n / 10) (Nat.div_lt_self (by omega) (by omega)) c hc
      · exact digitChar_isDigit (n % 10)

theorem natToChars_no_colon (n : Nat) : ':' ∉ natToChars n := by
  intro h
  have := natToChars_all_digits n ':' h
  simp [Char.isDigit] at this

theorem natToChars_ne_nil (n : Nat) : natToChars n ≠ [] := by
  by_cases hn : n < 10
  · rw [natToChars_lt n hn]; simp
  · rw [natToChars_ge n hn]; simp

theorem digitVal_digitChar (d : Nat) (h : d < 10) : digitVal (digitChar d) = d := by
  interval_cases d <;> decide

theorem takeWhile_eq_self_of_all {p : Char → Bool} {l : JSString}
    (h : ∀ c ∈ l, p c = true) : l.takeWhile p = l := by
  induction l with
  | nil => rfl
  | cons c rest ih =>
    simp only [List.takeWhile_cons, h c (List.mem_cons_self _ _)]
    simp [ih (fun c hc => h c (List.mem_cons_of_mem _ hc))]

theorem takeWhile_append_of_all {p : Char → Bool} {l1 : JSString} (l2 : JSString)
    (h : ∀ c ∈ l1, p c = true) : (l1 ++ l2).takeWhile p = l1 ++ l2.takeWhile p := by
  induction l1 with
  | nil => rfl
  | cons c rest ih =>
    simp only [List.cons_append, List.takeWhile_cons, h c (List.mem_cons_self _ _)]
    simp [ih (fun c hc => h c (List.mem_cons_of_mem _ hc))]

theorem digitsVal_append_one (l : JSString) (c : Char) :
    digitsVal (l ++ [c]) = digitsVal l * 10 + digitVal c := by
  simp [digitsVal, List.foldl_append]

theorem digitsVal_natToChars (n : Nat) : digitsVal (natToChars n) = n := by
  induction n using Nat.strong_induction_on with
  | _ n ih =>
    by_cases hn : n < 10
    · rw [natToChars_lt n hn]
      simp [digitsVal, digitVal_digitChar n hn]
    · rw [natToChars_ge n hn, digitsVal_append_one,
        ih (n / 10) (Nat.div_lt_self (by omega) (by omega)),
        digitVal_digitChar (n % 10) (Nat.mod_lt _ (by omega))]
      omega

theorem jsParseInt_natToChars (n : Nat) : jsParseInt (natToChars n) = n := by
  unfold jsParseInt
  rw [takeWhile_eq_self_of_all (natToChars_all_digits n), digitsVal_natToChars]

theorem jsParseInt_natToChars_colon (n : Nat) (rest : JSString) :
    jsParseInt (natToChars n ++ ':' :: rest) = n := by
  unfold jsParseInt
  rw [takeWhile_append_of_all (':' :: rest) (natToChars_all_digits n)]
  have hcolon : List.takeWhile Char.isDigit (':' :: rest) = [] := by
    rw [List.takeWhile_cons, show Char.isDigit ':' = false from rfl]
    simp
  rw [hcolon, List.append_nil, digitsVal_natToChars]

theorem splitOnChar_not_mem {sep : Char} {l : JSString} (h : sep ∉ l) :
    splitOnChar sep l = [l] := by
  induction l with
  | nil => rfl
  | cons c rest ih =>
    simp only [List.mem_cons, not_or] at h
    have hne : ¬ c = sep := fun he => h.1 he.symm
    rw [splitOnChar, if_neg hne, ih h.2]

theorem splitOnChar_append_cons {sep : Char} {l1 : JSString} (rest : JSString)
    (h : sep ∉ l1) : splitOnChar sep (l1 ++ sep :: rest) = l1 :: splitOnChar sep rest := by
  induction l1 with
  | nil => simp [splitOnChar]
  | cons c l1' ih =>
    simp only [List.mem_cons, not_or] at h
    have hne : ¬ c = sep := fun he => h.1 he.symm
    rw [List.cons_append, splitOnChar, if_neg hne, ih h.2]

theorem encodeKey_eq (r : Nat) (cn : JSString) :
    encodeKey r cn = natToChars r ++ ':' :: cn := by
  show natToChars r ++ (jstr ":") ++ cn = _
  rw [show (jstr ":") = [':'] from rfl]
  simp

theorem splitOnChar_encodeKey (r : Nat) (cn : JSString) :
    splitOnChar ':' (encodeKey r cn) = natToChars r :: splitOnChar ':' cn := by
  rw [encodeKey_eq]
  exact splitOnChar_append_cons cn (natToChars_no_colon r)

theorem append_colon_inj {l1 l2 r1 r2 : JSString} (h1 : ':' ∉ l1) (h2 : ':' ∉ l2)
    (he : l1 ++ ':' :: r1 = l2 ++ ':' :: r2) : l1 = l2 ∧ r1 = r2 := by
  induction l1 generalizing l2 with
  | nil =>
    cases l2 with
    | nil => simpa using he
    | cons d l2' =>
      simp only [List.nil_append, List.cons_append, List.cons.injEq] at he
      simp only [List.mem_cons, not_or] at h2
      exact absurd he.1 h2.1
  | cons c l1' ih =>
    cases l2 with
    | nil =>
      simp only [List.cons_append, List.nil_append, List.cons.injEq] at he
      simp only [List.mem_cons, not_or] at h1
      exact absurd he.1 (fun hc => h1.1 hc.symm)
    | cons d l2' =>
      simp only [List.cons_append, List.cons.injEq] at he
      simp only [List.mem_cons, not_or] at h1 h2
      have := ih h1.2 h2.2 he.2
      exact ⟨by rw [he.1, this.1], this.2⟩

theorem natToChars_inj {m n : Nat} (h : natToChars m = natToChars n) : m = n := by
  have := digitsVal_natToChars m
  rw [h, digitsVal_natToChars] at this
  omega

theorem encodeKey_inj {r r' : Nat} {c c' : JSString}
    (h : encodeKey r c = encodeKey r' c') : r = r' ∧ c = c' := by
  rw [encodeKey_eq, encodeKey_eq] at h
  have := append_colon_inj (natToChars_no_colon r) (natToChars_no_colon r') h
  exact ⟨natToChars_inj this.1, this.2⟩

theorem getD_set_self {α : Type} (l : List α) (i : Nat) (a d : α) (h : i < l.length) :
    (l.set i a).getD i d = a := by
  induction l generalizing i with
  | nil => simp at h
  | cons x rest ih =>
    cases i with
    | zero => rfl
    | succ j =>
      simp only [List.set, List.getD, List.length_cons] at *
      exact ih j (by omega)

theorem getD_set_ne {α : Type} (l : List α) (i j : Nat) (a d : α) (h : j ≠ i) :
    (l.set i a).getD j d = l.getD j d := by
  induction l generalizing i j with
  | nil => simp
  | cons x rest ih =>
    cases i with
    | zero =>
      cases j with
      | zero => omega
      | succ j' => rfl
    | succ i' =>
      cases j with
      | zero => rfl
      | succ j' =>
        simp only [List.set, List.getD]
        exact ih i' j' (by omega)

theorem mem_enumFrom_lt {α : Type} :
    ∀ (l : List α) (k : Nat) (p : Nat × α), p ∈ l.enumFrom k → p.1 < k + l.length := by
  intro l
  induction l with
  | nil => intro k p h; simp [List.enumFrom] at h
  | cons x rest ih =>
    intro k p h
    simp only [List.enumFrom, List.mem_cons] at h
    rcases h with rfl | h
    · simp
    · have := ih (k + 1) p h
      simp only [List.length_cons]
      omega

/-! ## Structure of `mappingPairs` -/

theorem map_getD_range {α : Type} (l : List α) (d : α) :
    (List.range l.length).map (fun i => l.getD i d) = l := by
  induction l with
  | nil => rfl
  | cons x rest ih =>
    rw [List.length_cons, List.range_succ_eq_map, List.map_cons]
    simp only [List.getD_cons_zero, List.map_map]
    have heq : ((fun i => (x :: rest).getD i d) ∘ (· + 1)) = fun i => rest.getD i d := by
      funext i
      simp [List.getD_cons_succ]
    rw [heq, ih]

theorem map_getD_range' {α : Type} (l : List α) (d : α) (s n : Nat)
    (hsn : s + n ≤ l.length) :
    (List.range' s n).map (fun i => l.getD i d) = (l.drop s).take n := by
  induction n generalizing s with
  | zero => simp
  | succ m ih =>
    rw [List.range'_succ, List.map_cons, ih (s + 1) (by omega)]
    have hs : s < l.length := by omega
    rw [List.getD_eq_getElem l d hs]
    rw [List.drop_eq_getElem_cons hs, List.take_succ_cons]

theorem mappingPairs_length (o : List JSString) (n : List SchemaCol)
    (e u : List JSString) :
    (mappingPairs o n e u).length = max o.length n.length := by
  unfold mappingPairs
  rcases Nat.lt_trichotomy o.length n.length with h | h | h
  · rw [if_neg (by omega), if_pos h]
    simp only [List.length_append, List.length_map, List.length_range, List.length_range']
    omega
  · rw [if_neg (by omega), if_neg (by omega)]
    simp only [List.length_map, List.length_range]
    omega
  · rw [if_pos h]
    simp only [List.length_append, List.length_map, List.length_range, List.length_range']
    omega

theorem range'_map_add_one (s n : Nat) :
    (List.range' s n).map (· + 1) = List.range' (s + 1) n := by
  induction n generalizing s with
  | zero => simp
  | succ m ih => rw [List.range'_succ, List.range'_succ, List.map_cons, ih (s + 1)]

theorem range_map_add_one (n : Nat) :
    (List.range n).map (· + 1) = List.range' 1 n := by
  rw [List.range_eq_range', show (1 : Nat) = 0 + 1 from rfl, ← range'_map_add_one]

theorem range'_append_one (s a b : Nat) :
    List.range' s a ++ List.range' (s + a) b = List.range' s (a + b) := by
  have h := List.range'_append s a b 1
  simp only [Nat.one_mul] at h
  rw [Nat.add_comm a b]
  exact h

theorem range_append_range' (a b : Nat) :
    List.range a ++ List.range' a b = List.range (a + b) := by
  rw [List.range_eq_range', List.range_eq_range']
  have h := List.range'_append 0 a b 1
  simp only [Nat.one_mul, Nat.zero_add] at h
  rw [Nat.add_comm a b]
  exact h

theorem mappingPairs_indices (o : List JSString) (n : List SchemaCol)
    (e u : List JSString) :
    (mappingPairs o n e u).map (fun p => p.2.index)
      = List.range' 1 (max o.length n.length) := by
  unfold mappingPairs
  rcases Nat.lt_trichotomy o.length n.length with h | h | h
  · rw [if_neg (by omega), if_pos h]
    rw [List.map_append, List.map_map, List.map_map]
    have h1 : ((fun p : JSString × MapEntry => p.2.index) ∘ fun i =>
        (o.getD i [], mkMappedEntry (n.getD i default) e u i)) = (· + 1) := rfl
    have h2 : ((fun p : JSString × MapEntry => p.2.index) ∘ fun i =>
        (jstr "MISSING_ORIGINAL_" ++ natToChars i,
          mkMappedEntry (n.getD i default) e u i)) = (· + 1) := rfl
    rw [h1, h2, range_map_add_one, range'_map_add_one]
    rw [show min o.length n.length = o.length by omega]
    rw [show o.length + 1 = 1 + o.length by omega,
      range'_append_one 1 o.length (n.length - o.length)]
    rw [show o.length + (n.length - o.length) = max o.length n.length by omega]
  · rw [if_neg (by omega), if_neg (by omega), List.map_map]
    have h1 : ((fun p : JSString × MapEntry => p.2.index) ∘ fun i =>
        (o.getD i [], mkMappedEntry (n.getD i default) e u i)) = (· + 1) := rfl
    rw [h1, range_map_add_one]
    congr 1
    omega
  · rw [if_pos h]
    rw [List.map_append, List.map_map, List.map_map]
    have h1 : ((fun p : JSString × MapEntry => p.2.index) ∘ fun i =>
        (o.getD i [], mkMappedEntry (n.getD i default) e u i)) = (· + 1) := rfl
    have h2 : ((fun p : JSString × MapEntry => p.2.index) ∘ fun i =>
        (o.getD i [], unmappedEntry i)) = (· + 1) := rfl
    rw [h1, h2, range_map_add_one, range'_map_add_one]
    rw [show min o.length n.length = n.length by omega]
    rw [show n.length + 1 = 1 + n.length by omega,
      range'_append_one 1 n.length (o.length - n.length)]
    rw [show n.length + (o.length - n.length) = max o.length n.length by omega]

theorem mappingPairs_keys_take (o : List JSString) (n : List SchemaCol)
    (e u : List JSString) :
    ((mappingPairs o n e u).map Prod.fst).take o.length = o := by
  unfold mappingPairs
  rcases Nat.lt_trichotomy o.length n.length with h | h | h
  · rw [if_neg (by omega), if_pos h]
    rw [List.map_append, List.map_map]
    have h1 : (Prod.fst ∘ fun i =>
        ((o.getD i ([] : JSString)), mkMappedEntry (n.getD i default) e u i))
        = fun i => o.getD i [] := rfl
    rw [h1]
    rw [show min o.length n.length = o.length by omega]
    rw [List.take_append_of_le_length (by simp)]
    rw [List.take_of_length_le (by simp)]
    rw [map_getD_range]
  · rw [if_neg (by omega), if_neg (by omega), List.map_map]
    have h1 : (Prod.fst ∘ fun i =>
        ((o.getD i ([] : JSString)), mkMappedEntry (n.getD i default) e u i))
        = fun i => o.getD i [] := rfl
    rw [h1, show min o.length n.length = o.length by omega]
    rw [List.take_of_length_le (by simp)]
    rw [map_getD_range]
  · rw [if_pos h]
    rw [List.map_append, List.map_map, List.map_map]
    have h1 : (Prod.fst ∘ fun i =>
        ((o.getD i ([] : JSString)), mkMappedEntry (n.getD i default) e u i))
        = fun i => o.getD i [] := rfl
    have h2 : (Prod.fst ∘ fun i => ((o.getD i ([] : JSString)), unmappedEntry i))
        = fun i => o.getD i [] := rfl
    rw [h1, h2, show min o.length n.length = n.length by omega]
    rw [← List.map_append, range_append_range',
      show n.length + (o.length - n.length) = o.length by omega]
    rw [List.take_of_length_le (by simp), map_getD_range]

theorem createColumnMapping_eq_pairs (o : List JSString) (n : List SchemaCol)
    (e u : List JSString)
    (hnd : ((mappingPairs o n e u).map Prod.fst).Nodup) :
    createColumnMapping o n e u = mappingPairs o n e u := by
  unfold createColumnMapping
  rw [foldl_objSet_eq_append (mappingPairs o n e u) [] (by simpa [objKeys] using hnd)]
  simp

/-! ## Claim C1 -/

/-- C1 (corrected): for a `ColumnMapping` built by `createColumnMapping` from
`N` original headers and `M` successfully parsed schema lines, PROVIDED the
generated entry keys are pairwise distinct (in particular the original headers
contain no duplicates and none equals a generated `MISSING_ORIGINAL_<i>`), the
mapping has exactly `max(N, M)` entries, its `index` values are exactly the
contiguous range `1..max(N, M)` in order (hence no gaps and no duplicates),
and the first `N` entries are keyed by the original columns, one entry per
original column position.  The claim as frozen omits the distinctness proviso
and is false (see the counterexample): JS object assignment collapses
duplicate keys. -/
theorem claim_C1_mapping_shape (originalColumns : List JSString)
    (newColumns : List SchemaCol) (excludedColumns uniqueColumns : List JSString)
    (hnd : ((mappingPairs originalColumns newColumns excludedColumns
      uniqueColumns).map Prod.fst).Nodup) :
    (createColumnMapping originalColumns newColumns excludedColumns
        uniqueColumns).length = max originalColumns.length newColumns.length ∧
    (createColumnMapping originalColumns newColumns excludedColumns
        uniqueColumns).map (fun p => p.2.index)
      = List.range' 1 (max originalColumns.length newColumns.length) ∧
    ((createColumnMapping originalColumns newColumns excludedColumns
        uniqueColumns).map Prod.fst).take originalColumns.length
      = originalColumns := by
  rw [createColumnMapping_eq_pairs _ _ _ _ hnd]
  exact ⟨mappingPairs_length _ _ _ _, mappingPairs_indices _ _ _ _,
    mappingPairs_keys_take _ _ _ _⟩

/-- Witness for C1: two distinct headers `A`, `B` and one parsed schema line
(`name`): three hypotheses-discharged instances of the theorem's conclusion. -/
theorem claim_C1_witness :
    (createColumnMapping [jstr "A", jstr "B"]
        [⟨jstr "name", jstr "string", [], [], jstr "^a$"⟩] [] []).length
      = max ([jstr "A", jstr "B"] : List JSString).length
          ([⟨jstr "name", jstr "string", [], [], jstr "^a$"⟩] : List SchemaCol).length ∧
    (createColumnMapping [jstr "A", jstr "B"]
        [⟨jstr "name", jstr "string", [], [], jstr "^a$"⟩] [] []).map
        (fun p => p.2.index)
      = List.range' 1 (max ([jstr "A", jstr "B"] : List JSString).length
          ([⟨jstr "name", jstr "string", [], [], jstr "^a$"⟩] : List SchemaCol).length) ∧
    ((createColumnMapping [jstr "A", jstr "B"]
        [⟨jstr "name", jstr "string", [], [], jstr "^a$"⟩] [] []).map Prod.fst).take
        ([jstr "A", jstr "B"] : List JSString).length
      = [jstr "A", jstr "B"] :=
  claim_C1_mapping_shape [jstr "A", jstr "B"]
    [⟨jstr "name", jstr "string", [], [], jstr "^a$"⟩] [] [] (by decide)

/-- Counterexample to C1 as frozen: with duplicate original headers
`["A", "A"]` and no schema lines (`N = 2`, `M = 0`), the built mapping has a
single entry — not `max(N, M) = 2` — because the second assignment to key
`"A"` overwrites the first; its only index is `2`, so the index values are
not `1..2`. -/
theorem claim_C1_counterexample :
    (createColumnMapping [jstr "A", jstr "A"] [] [] []).length = 1 ∧
    ¬ ((createColumnMapping [jstr "A", jstr "A"] [] [] []).length = 2) ∧
    (createColumnMapping [jstr "A", jstr "A"] [] [] []).map (fun p => p.2.index)
      ≠ List.range' 1 2 := by
  refine ⟨by decide, by decide, by decide⟩

/-! ## Claim C3 support -/

theorem isPre_refl (l : JSString) : isPre l l = true := by
  induction l with
  | nil => rfl
  | cons c rest ih => simp [isPre, ih]

theorem isPre_length {p t : JSString} (h : isPre p t = true) : p.length ≤ t.length := by
  induction p generalizing t with
  | nil => simp
  | cons c rest ih =>
    cases t with
    | nil => simp [isPre] at h
    | cons d t' =>
      simp only [isPre, Bool.and_eq_true] at h
      have := ih h.2
      simp only [List.length_cons]
      omega

theorem foldl_last_some (P : Nat → Bool) :
    ∀ n i, i < n → P i = true → (∀ j, i < j → j < n → P j = false) →
      (List.range n).foldl (fun acc j => if P j then some j else acc) none = some i := by
  intro n
  induction n with
  | zero => intro i h; omega
  | succ m ih =>
    intro i hi hP hmax
    rw [List.range_succ, List.foldl_append, List.foldl_cons, List.foldl_nil]
    by_cases him : i = m
    · subst him
      simp [hP]
    · have hlt : i < m := by omega
      have hm : P m = false := hmax m (by omega) (by omega)
      simp only [hm, Bool.false_eq_true, if_false]
      exact ih i hlt hP (fun j h1 h2 => hmax j h1 (by omega))

theorem jsLastIndexOf_drop (l : JSString) (i : Nat) (hi : i ≤ l.length) :
    jsLastIndexOf l (l.drop i) = some i := by
  unfold jsLastIndexOf
  apply foldl_last_some (fun j => isPre (l.drop i) (l.drop j)) (l.length + 1) i
    (by omega) (isPre_refl _)
  intro j h1 h2
  by_cases hP : isPre (l.drop i) (l.drop j) = true
  · have hlen := isPre_length hP
    rw [List.length_drop, List.length_drop] at hlen
    omega
  · exact Bool.not_eq_true _ ▸ (by simpa using hP)

theorem findCommaCaret_lt {l : JSString} {i : Nat} (h : findCommaCaret l = some i) :
    i < l.length := by
  induction l generalizing i with
  | nil => simp [findCommaCaret] at h
  | cons c rest ih =>
    rw [findCommaCaret] at h
    by_cases hc : c = ',' ∧ rest.head? = some '^'
    · rw [if_pos hc] at h
      simp only [Option.some.injEq] at h
      subst h
      simp
    · rw [if_neg hc] at h
      rcases Option.map_eq_some'.mp h with ⟨j, hj, rfl⟩
      have := ih hj
      simp only [List.length_cons]
      omega

theorem csvRun_ne_nil (doTrim : Bool) :
    ∀ l cur inQ, csvRun doTrim l cur inQ ≠ [] := by
  intro l cur inQ
  induction l, cur, inQ using csvRun.induct doTrim <;> simp_all [csvRun]

/-! ## Claim C3 -/

/-- C3 (corrected): for every definition line containing at least one `",^"`
occurrence, `parseSchemaLine` isolates the regex beginning at the FIRST
occurrence of `",^"` (the JS `match` scans left to right) — not the last, as
the claim states — and tokenizes the prefix before that comma as a
quote-aware comma-separated `(name, dataType, description, example)` record.
The `lastIndexOf` in the source operates on the matched substring, which runs
to end of line, so it recovers exactly the match position. -/
theorem claim_C3_regex_first_split (line : JSString) (i : Nat)
    (h : findCommaCaret line = some i) :
    parseSchemaLine line = some (schemaLineSplitAt line i) := by
  have hlt : i < line.length := findCommaCaret_lt h
  unfold parseSchemaLine
  rw [h]
  simp only
  rw [jsLastIndexOf_drop line i (by omega)]
  simp only [Option.getD_some]
  rcases hcsv : parseCSVLineA (line.take i) with _ | ⟨p0, rest⟩
  · exact absurd hcsv (csvRun_ne_nil true _ _ _)
  · unfold schemaLineSplitAt
    rw [hcsv]
    simp only [Option.some.injEq]
    refine SchemaCol.mk.injEq .. ▸ ⟨rfl, ?_, ?_, ?_, rfl⟩ <;>
      simp only [List.getD_cons_succ, List.getD_cons_zero, List.length_cons,
        ge_iff_le] <;>
      rcases rest with _ | ⟨p1, rest1⟩ <;>
      try rcases rest1 with _ | ⟨p2, rest2⟩ <;>
      try rcases rest2 with _ | ⟨p3, rest3⟩
    all_goals simp [List.getD]

/-- Witness for C3: a well-formed five-field schema line; the first `",^"`
sits at index 19 and the theorem yields the expected parsed record. -/
theorem claim_C3_witness :
    parseSchemaLine (jstr "name,string,desc,ex,^[a-z]+$")
      = some ⟨jstr "name", jstr "string", jstr "desc", jstr "ex", jstr "^[a-z]+$"⟩ := by
  have h := claim_C3_regex_first_split (jstr "name,string,desc,ex,^[a-z]+$") 19 (by decide)
  rw [h]
  decide

/-- Counterexample to C3 as frozen: in `"a,b,^x,c,^y"` the LAST occurrence of
`",^"` is at index 8, so the claim predicts regex `"^y"` with description
`"^x"` and example `"c"` in the prefix; the code instead splits at the FIRST
occurrence (index 3), producing regex `"^x,c,^y"` and empty
description/example. -/
theorem claim_C3_counterexample :
    (parseSchemaLine (jstr "a,b,^x,c,^y")).map SchemaCol.regex
        = some (jstr "^x,c,^y") ∧
    (parseSchemaLine (jstr "a,b,^x,c,^y")).map SchemaCol.regex
        ≠ some (jstr "^y") ∧
    (parseSchemaLine (jstr "a,b,^x,c,^y")).map SchemaCol.description
        ≠ some (jstr "^x") := by
  refine ⟨by decide, by decide, by decide⟩

/-! ## Claim C5 support -/

theorem natObjGet_foldl_set {α : Type} (ps : List (Nat × α)) :
    ∀ (acc : NatObj α) (r : Nat),
      natObjGet (ps.foldl (fun a p => natObjSet a p.1 p.2) acc) r
        = (match ps.reverse.find? (fun p => decide (p.1 = r)) with
           | some p => some p.2
           | none => natObjGet acc r) := by
  induction ps with
  | nil => intro acc r; simp
  | cons p rest ih =>
    intro acc r
    rw [List.foldl_cons, ih (natObjSet acc p.1 p.2) r, List.reverse_cons,
      List.find?_append]
    rcases hfind : rest.reverse.find? (fun q => decide (q.1 = r)) with _ | q
    · by_cases hp : p.1 = r <;> simp [hfind, hp, natObjGet_natObjSet]
    · simp [hfind]

theorem natObj_foldl_nodup {α : Type} (ps : List (Nat × α)) :
    ∀ acc : NatObj α, (acc.map Prod.fst).Nodup →
      (((ps.foldl (fun a p => natObjSet a p.1 p.2) acc)).map Prod.fst).Nodup := by
  induction ps with
  | nil => intro acc h; simpa using h
  | cons p rest ih =>
    intro acc h
    exact ih (natObjSet acc p.1 p.2) (natObj_nodup_set acc p.1 p.2 h)

theorem foldl_archStep_eq_filterMap (lines : List JSString) :
    ∀ acc : NatObj (List JSString),
      lines.foldl archStep acc
      = (lines.filterMap processArchitectLine).foldl
          (fun a p => natObjSet a p.1 p.2) acc := by
  induction lines with
  | nil => intro acc; rfl
  | cons line rest ih =>
    intro acc
    rcases hf : processArchitectLine line with _ | x
    · have h1 : archStep acc line = acc := by unfold archStep; rw [hf]
      rw [List.foldl_cons, h1, List.filterMap_cons, hf]
      exact ih acc
    · have h1 : archStep acc line = natObjSet acc x.1 x.2 := by unfold archStep; rw [hf]
      rw [List.foldl_cons, h1, List.filterMap_cons, hf]
      exact ih _

theorem foldl_scopedStep_eq_filterMap (lines : List JSString) :
    ∀ acc : List ScopedChange,
      lines.foldl scopedStep acc = acc ++ lines.filterMap processScopedLine := by
  induction lines with
  | nil => intro acc; simp
  | cons line rest ih =>
    intro acc
    rcases hf : processScopedLine line with _ | c
    · have h1 : scopedStep acc line = acc := by unfold scopedStep; rw [hf]
      rw [List.foldl_cons, h1, List.filterMap_cons, hf]
      exact ih acc
    · have h1 : scopedStep acc line = acc ++ [c] := by unfold scopedStep; rw [hf]
      rw [List.foldl_cons, h1, List.filterMap_cons, hf]
      rw [ih (acc ++ [c])]
      simp

/-! ## Claim C5 -/

/-- C5 (corrected): deduplication by last-write-wins per rowId holds in
full-row (architect) mode — `parseArchitectSemanticDiff` keys its output
object by rowId, so its keys are duplicate-free and looking a rowId up yields
the values of the LAST parseable line carrying it — but NOT in scoped
(single-column) mode: `parseSemanticDiffChanges` pushes one correction per
parseable line onto an array, preserving duplicates in line order (the
counterexample exhibits two corrections for one rowId). -/
theorem claim_C5_dedup_modes (semanticDiff : JSString) (rowId : Nat) :
    ((parseArchitectSemanticDiff semanticDiff).map Prod.fst).Nodup ∧
    natObjGet (parseArchitectSemanticDiff semanticDiff) rowId
      = (match ((splitOnChar '\n' semanticDiff).filterMap
            processArchitectLine).reverse.find? (fun p => decide (p.1 = rowId)) with
         | some p => some p.2
         | none => none) ∧
    parseSemanticDiffChanges semanticDiff
      = (splitOnChar '\n' semanticDiff).filterMap processScopedLine := by
  refine ⟨?_, ?_, ?_⟩
  · unfold parseArchitectSemanticDiff
    rw [foldl_archStep_eq_filterMap]
    exact natObj_foldl_nodup _ [] (by simp)
  · unfold parseArchitectSemanticDiff
    rw [foldl_archStep_eq_filterMap, natObjGet_foldl_set]
    rcases hfind : ((splitOnChar '\n' semanticDiff).filterMap
        processArchitectLine).reverse.find? (fun p => decide (p.1 = rowId)) with _ | q
    · rw [hfind]
      rfl
    · rw [hfind]
  · unfold parseSemanticDiffChanges
    rw [foldl_scopedStep_eq_filterMap]
    simp

/-- Counterexample to C5 as frozen: in scoped mode the diff text
`"1,a\n1,b"` yields TWO corrections for rowId 1 (in line order), not one. -/
theorem claim_C5_counterexample :
    parseSemanticDiffChanges (jstr "1,a\n1,b")
        = [⟨1, jstr "a"⟩, ⟨1, jstr "b"⟩] ∧
    ¬ ((parseSemanticDiffChanges (jstr "1,a\n1,b")).filter
        (fun c => decide (c.rowId = 1))).length = 1 := by
  refine ⟨by decide, by decide⟩

/-! ## Claim C2 -/

/-- C2 (code bug): the header-rename step is NOT a round trip.  When the
AI-proposed `semanticName` is textually equal to the original header — the
ordinary case of the AI echoing a good name — the rename loop executes
`row[newHeader] = row[oldHeader]; delete row[oldHeader]` with
`newHeader === oldHeader`, which deletes the property outright: the column
and all its cell values vanish from every row.  Here a one-column dataset
`{name: "v"}` with the identity mapping `name → name` at index 1 renames to
the empty row, so looking `semanticName` up by its index recovers nothing.
With a differing name (`Name → customer`) the rename behaves as claimed,
isolating the equal-name case as the failure. -/
theorem claim_C2_rename_not_round_trip :
    renameStep [(jstr "name", ⟨jstr "name", false, false, 1, [], [], [], []⟩)]
        [[(jstr "name", jstr "v")]] = [[]] ∧
    objGet ((renameStep [(jstr "name", ⟨jstr "name", false, false, 1, [], [], [], []⟩)]
        [[(jstr "name", jstr "v")]]).headD []) (jstr "name") = none ∧
    renameStep [(jstr "Name", ⟨jstr "customer", false, false, 1, [], [], [], []⟩)]
        [[(jstr "Name", jstr "v")]] = [[(jstr "customer", jstr "v")]] := by
  refine ⟨by decide, by decide, by decide⟩

/-! ## Claim C4 -/

/-- C4 (corrected): applying the same cell correction twice produces TWO
`ChangeInfo` ledger records for the cell, not one — `parseSemanticDiffChanges`
does not deduplicate and the apply loop records every change it processes.
What does hold: the FIRST record's `needsChange` is computed against the
cell's original (pre-correction) value; the SECOND record's `needsChange` is
`false` (computed against the already-patched value, which now equals the
correction); and the dataset after applying twice equals the dataset after
applying once (the patch itself is idempotent). -/
theorem claim_C4_double_apply (filename columnName columnHeader : JSString)
    (columnIndex : Nat) (data : Dataset) (c : ScopedChange)
    (h : 1 ≤ c.rowId ∧ c.rowId - 1 < data.length) :
    (applyChangesForColumn filename columnName columnHeader columnIndex data []
        [c, c]).2.length = 2 ∧
    (applyChangesForColumn filename columnName columnHeader columnIndex data []
        [c, c]).1
      = (applyChangesForColumn filename columnName columnHeader columnIndex data []
        [c]).1 ∧
    ((applyChangesForColumn filename columnName columnHeader columnIndex data []
        [c, c]).2.getD 0 default).needsChange
      = decide ((objGet (data.getD (c.rowId - 1) []) columnHeader).getD []
          ≠ stripQuotesOnce c.correctedValue) ∧
    ((applyChangesForColumn filename columnName columnHeader columnIndex data []
        [c, c]).2.getD 1 default).needsChange = false := by
  obtain ⟨h1, h2⟩ := h
  have happly : ∀ (d0 : Dataset) (recs : List ChangeInfo),
      c.rowId - 1 < d0.length →
      applyOneCleanerChange filename columnName columnHeader columnIndex
        (d0, recs) c
      = (if decide ((objGet (d0.getD (c.rowId - 1) []) columnHeader).getD []
            ≠ stripQuotesOnce c.correctedValue) = true
           then d0.set (c.rowId - 1)
             (objSet (d0.getD (c.rowId - 1) []) columnHeader
               (stripQuotesOnce c.correctedValue))
           else d0,
         recs ++ [⟨filename, columnName, columnHeader, columnIndex, c.rowId,
           (objGet (d0.getD (c.rowId - 1) []) columnHeader).getD [],
           stripQuotesOnce c.correctedValue, false, [],
           decide ((objGet (d0.getD (c.rowId - 1) []) columnHeader).getD []
             ≠ stripQuotesOnce c.correctedValue), false⟩]) := by
    intro d0 recs hlen
    unfold applyOneCleanerChange
    rw [if_pos (⟨h1, hlen⟩ : 1 ≤ c.rowId ∧ c.rowId - 1 < d0.length)]
  have hfold2 : applyChangesForColumn filename columnName columnHeader columnIndex
        data [] [c, c]
      = applyOneCleanerChange filename columnName columnHeader columnIndex
          (applyOneCleanerChange filename columnName columnHeader columnIndex
            (data, []) c) c := rfl
  have hfold1 : applyChangesForColumn filename columnName columnHeader columnIndex
        data [] [c]
      = applyOneCleanerChange filename columnName columnHeader columnIndex
          (data, []) c := rfl
  have e1 := happly data [] h2
  have hlen1 : c.rowId - 1
      < (if decide ((objGet (data.getD (c.rowId - 1) []) columnHeader).getD []
            ≠ stripQuotesOnce c.correctedValue) = true
         then data.set (c.rowId - 1)
           (objSet (data.getD (c.rowId - 1) []) columnHeader
             (stripQuotesOnce c.correctedValue))
         else data).length := by
    split <;> simp [h2]
  have hcur2 : (objGet
      ((if decide ((objGet (data.getD (c.rowId - 1) []) columnHeader).getD []
            ≠ stripQuotesOnce c.correctedValue) = true
        then data.set (c.rowId - 1)
          (objSet (data.getD (c.rowId - 1) []) columnHeader
            (stripQuotesOnce c.correctedValue))
        else data).getD (c.rowId - 1) []) columnHeader).getD []
      = stripQuotesOnce c.correctedValue := by
    by_cases hb : (objGet (data.getD (c.rowId - 1) []) columnHeader).getD []
        = stripQuotesOnce c.correctedValue
    · rw [if_neg (by rw [hb]; simp)]
      exact hb
    · rw [if_pos (decide_eq_true hb)]
      rw [getD_set_self data (c.rowId - 1) _ [] h2]
      rw [objGet_objSet]
      simp
  rw [hfold2, hfold1, e1, happly _ _ hlen1]
  refine ⟨by simp, ?_, by simp, ?_⟩
  · rw [hcur2]
    simp
  · rw [hcur2]
    simp

/-- Witness for C4: dataset `[{col: "y"}]`, correction `1,"x"` applied twice —
two records, needsChange `true` then `false`, dataset unchanged vs one
application. -/
theorem claim_C4_witness :
    (applyChangesForColumn [] (jstr "col") (jstr "col") 0
        [[(jstr "col", jstr "y")]] [] [⟨1, jstr "x"⟩, ⟨1, jstr "x"⟩]).2.length = 2 ∧
    (applyChangesForColumn [] (jstr "col") (jstr "col") 0
        [[(jstr "col", jstr "y")]] [] [⟨1, jstr "x"⟩, ⟨1, jstr "x"⟩]).1
      = (applyChangesForColumn [] (jstr "col") (jstr "col") 0
        [[(jstr "col", jstr "y")]] [] [⟨1, jstr "x"⟩]).1 ∧
    ((applyChangesForColumn [] (jstr "col") (jstr "col") 0
        [[(jstr "col", jstr "y")]] [] [⟨1, jstr "x"⟩, ⟨1, jstr "x"⟩]).2.getD 0
        default).needsChange
      = decide ((objGet (([[(jstr "col", jstr "y")]] : Dataset).getD (1 - 1) [])
          (jstr "col")).getD [] ≠ stripQuotesOnce (jstr "x")) ∧
    ((applyChangesForColumn [] (jstr "col") (jstr "col") 0
        [[(jstr "col", jstr "y")]] [] [⟨1, jstr "x"⟩, ⟨1, jstr "x"⟩]).2.getD 1
        default).needsChange = false :=
  claim_C4_double_apply [] (jstr "col") (jstr "col") 0
    [[(jstr "col", jstr "y")]] ⟨1, jstr "x"⟩ (by decide)

/-- Counterexample to C4 as frozen: the same setup records two ledger entries
for cell (1, col), so "exactly one ChangeRecord" is false; and the second
entry's `needsChange` is computed from the intermediate patched value ("x"),
not the original ("y"). -/
theorem claim_C4_counterexample :
    ¬ ((applyChangesForColumn [] (jstr "col") (jstr "col") 0
        [[(jstr "col", jstr "y")]] [] [⟨1, jstr "x"⟩, ⟨1, jstr "x"⟩]).2.length = 1) ∧
    ((applyChangesForColumn [] (jstr "col") (jstr "col") 0
        [[(jstr "col", jstr "y")]] [] [⟨1, jstr "x"⟩, ⟨1, jstr "x"⟩]).2.map
        (fun ci => (ci.currentValue, ci.needsChange)))
      = [(jstr "y", true), (jstr "x", false)] := by
  refine ⟨by decide, by decide⟩

/-! ## Claim C7 support -/

theorem nodup_getD_ne {l : List JSString} (hnd : l.Nodup) {i j : Nat}
    (hi : i < l.length) (hj : j < l.length) (hij : i ≠ j) :
    l.getD i [] ≠ l.getD j [] := by
  rw [List.getD_eq_getElem l [] hi, List.getD_eq_getElem l [] hj]
  intro h
  exact hij (List.Nodup.getElem_inj_iff hnd |>.mp h)

theorem applyArchitectRow_eq (data : Dataset) (headers : List JSString)
    (rowId : Nat) (values : List JSString)
    (h : 1 ≤ rowId ∧ rowId - 1 < data.length) :
    applyArchitectRow data headers rowId values
      = data.set (rowId - 1)
          ((List.range (min values.length headers.length)).foldl
            (fun r i => objSet r (headers.getD i []) (values.getD i []))
            (data.getD (rowId - 1) [])) := by
  unfold applyArchitectRow
  rw [if_pos h]
  dsimp only
  rcases Nat.lt_trichotomy values.length headers.length with hlt | heq | hgt
  · rw [if_neg (show ¬ values.length = headers.length by omega), if_pos hlt,
      show min values.length headers.length = values.length by omega]
  · rw [if_pos heq, show min values.length headers.length = values.length by omega]
  · rw [if_neg (show ¬ values.length = headers.length by omega),
      if_neg (show ¬ values.length < headers.length by omega),
      show min values.length headers.length = headers.length by omega]

theorem foldl_setHeaders_spec (headers values : List JSString) (row : Row) :
    ∀ k, k ≤ headers.length → headers.Nodup →
      (∀ j, j < k →
        objGet ((List.range k).foldl
          (fun r i => objSet r (headers.getD i []) (values.getD i [])) row)
          (headers.getD j []) = some (values.getD j [])) ∧
      (∀ s, (∀ j, j < k → headers.getD j [] ≠ s) →
        objGet ((List.range k).foldl
          (fun r i => objSet r (headers.getD i []) (values.getD i [])) row) s
          = objGet row s) := by
  intro k
  induction k with
  | zero =>
    intro _ _
    exact ⟨fun j hj => by omega, fun s _ => rfl⟩
  | succ m ih =>
    intro hk hnd
    obtain ⟨ih1, ih2⟩ := ih (by omega) hnd
    have hfold : (List.range (m + 1)).foldl
        (fun r i => objSet r (headers.getD i []) (values.getD i [])) row
        = objSet ((List.range m).foldl
            (fun r i => objSet r (headers.getD i []) (values.getD i [])) row)
          (headers.getD m []) (values.getD m []) := by
      rw [List.range_succ, List.foldl_append, List.foldl_cons, List.foldl_nil]
    constructor
    · intro j hj
      rw [hfold, objGet_objSet]
      by_cases hjm : j = m
      · subst hjm
        rw [if_pos rfl]
      · have hne : headers.getD m [] ≠ headers.getD j [] :=
          nodup_getD_ne hnd (by omega) (by omega) (fun he => hjm (he.symm))
        rw [if_neg hne]
        exact ih1 j (by omega)
    · intro s hs
      rw [hfold, objGet_objSet, if_neg (hs m (by omega)),
        ih2 s (fun j hj => hs j (by omega))]

/-! ## Claim C7 -/

/-- C7 (confirmed): for a row correction with in-range `rowId` (the live
headers `Object.keys(data[0])` being duplicate-free, as JS object keys are):
the dataset keeps its length; every other row is untouched; the first
`min(len(values), headerCount)` columns of the target row take the
corresponding corrected values — all of them when the counts agree, only the
first `len(values)` on a partial correction, only the first `headerCount` on
an oversized one (extras discarded) — and every property outside those
columns keeps its pre-correction value.  A row correction with out-of-range
`rowId` leaves the dataset unchanged. -/
theorem claim_C7_row_correction_frame (data : Dataset) (headers : List JSString)
    (rowId : Nat) (values : List JSString) (hnd : headers.Nodup) :
    ((1 ≤ rowId ∧ rowId - 1 < data.length) →
      (applyArchitectRow data headers rowId values).length = data.length ∧
      (∀ j, j ≠ rowId - 1 →
        (applyArchitectRow data headers rowId values).getD j []
          = data.getD j []) ∧
      (∀ i, i < min values.length headers.length →
        objGet ((applyArchitectRow data headers rowId values).getD (rowId - 1) [])
          (headers.getD i []) = some (values.getD i [])) ∧
      (∀ s, (∀ i, i < min values.length headers.length → headers.getD i [] ≠ s) →
        objGet ((applyArchitectRow data headers rowId values).getD (rowId - 1) []) s
          = objGet (data.getD (rowId - 1) []) s)) ∧
    (¬ (1 ≤ rowId ∧ rowId - 1 < data.length) →
      applyArchitectRow data headers rowId values = data) := by
  constructor
  · intro h
    obtain ⟨hspec1, hspec2⟩ := foldl_setHeaders_spec headers values
      (data.getD (rowId - 1) []) (min values.length headers.length)
      (by omega) hnd
    rw [applyArchitectRow_eq data headers rowId values h]
    refine ⟨by simp, ?_, ?_, ?_⟩
    · intro j hj
      exact getD_set_ne data (rowId - 1) j _ [] hj
    · intro i hi
      rw [getD_set_self data (rowId - 1) _ [] h.2]
      exact hspec1 i hi
    · intro s hs
      rw [getD_set_self data (rowId - 1) _ [] h.2]
      exact hspec2 s hs
  · intro h
    unfold applyArchitectRow
    rw [if_neg h]

/-- Witness for C7: dataset `[{A:1, B:2}]`, headers `[A, B]`, partial
correction `rowId 1, values ["x"]`: length kept, `A` overwritten, `B`
retained; and an out-of-range correction (`rowId 5`) changes nothing. -/
theorem claim_C7_witness :
    (applyArchitectRow [[(jstr "A", jstr "1"), (jstr "B", jstr "2")]]
        [jstr "A", jstr "B"] 1 [jstr "x"]).length = 1 ∧
    objGet ((applyArchitectRow [[(jstr "A", jstr "1"), (jstr "B", jstr "2")]]
        [jstr "A", jstr "B"] 1 [jstr "x"]).getD 0 []) (jstr "A")
      = some (jstr "x") ∧
    objGet ((applyArchitectRow [[(jstr "A", jstr "1"), (jstr "B", jstr "2")]]
        [jstr "A", jstr "B"] 1 [jstr "x"]).getD 0 []) (jstr "B")
      = some (jstr "2") ∧
    applyArchitectRow [[(jstr "A", jstr "1"), (jstr "B", jstr "2")]]
        [jstr "A", jstr "B"] 5 [jstr "x"]
      = [[(jstr "A", jstr "1"), (jstr "B", jstr "2")]] := by
  have h := claim_C7_row_correction_frame
    [[(jstr "A", jstr "1"), (jstr "B", jstr "2")]] [jstr "A", jstr "B"] 1
    [jstr "x"] (by decide)
  have h5 := claim_C7_row_correction_frame
    [[(jstr "A", jstr "1"), (jstr "B", jstr "2")]] [jstr "A", jstr "B"] 5
    [jstr "x"] (by decide)
  obtain ⟨hlen, hframe, hset, hkeep⟩ := h.1 (by decide)
  refine ⟨hlen, ?_, ?_, h5.2 (by decide)⟩
  · exact hset 0 (by decide)
  · exact (hkeep (jstr "B") (by decide)).trans (by decide)

/-! ## Claim C6 support -/

theorem jsTrim_eq_nil_of_all {s : JSString} (h : ∀ c ∈ s, isJsSpace c = true) :
    jsTrim s = [] := by
  unfold jsTrim
  have h1 : s.dropWhile isJsSpace = [] := by
    induction s with
    | nil => rfl
    | cons c rest ih =>
      rw [List.dropWhile_cons, if_pos (h c (List.mem_cons_self _ _))]
      exact ih (fun c hc => h c (List.mem_cons_of_mem _ hc))
  rw [h1]
  rfl

theorem testRegexMatchSt_of_empty (compile : RegexEngine) (v : Option JSString)
    (regex : JSString) (h : isEmptyValueSt v = true) :
    testRegexMatchSt compile v regex = true := by
  unfold testRegexMatchSt
  by_cases hr : regex = [] ∨ regex = jstr "^.*$"
  · rw [if_pos hr]
  · rw [if_neg hr, if_pos h]

theorem testRegexMatchCl_of_empty (compile : RegexEngine) (v : Option JSString)
    (regex : JSString) (h : isEmptyValueCl v = true) :
    testRegexMatchCl compile v regex = true := by
  unfold testRegexMatchCl
  by_cases hr : regex = [] ∨ regex = jstr "^.*$"
  · rw [if_pos hr]
  · rw [if_neg hr, if_pos h]

theorem testRegexMatchSt_failopen (compile : RegexEngine) (v : Option JSString)
    (regex : JSString) (h : compile regex = none) :
    testRegexMatchSt compile v regex = true := by
  unfold testRegexMatchSt
  by_cases hr : regex = [] ∨ regex = jstr "^.*$"
  · rw [if_pos hr]
  · rw [if_neg hr]
    by_cases he : isEmptyValueSt v = true
    · rw [if_pos he]
    · rw [if_neg he, h]

theorem testRegexMatchCl_failopen (compile : RegexEngine) (v : Option JSString)
    (regex : JSString) (h : compile regex = none) :
    testRegexMatchCl compile v regex = true := by
  unfold testRegexMatchCl
  by_cases hr : regex = [] ∨ regex = jstr "^.*$"
  · rw [if_pos hr]
  · rw [if_neg hr]
    by_cases he : isEmptyValueCl v = true
    · rw [if_pos he]
    · rw [if_neg he, h]

theorem isEmptyValueSt_of_all_space {s : JSString} (hs : s.all isJsSpace = true) :
    isEmptyValueSt (some s) = true := by
  have := jsTrim_eq_nil_of_all (fun c hc => List.all_eq_true.mp hs c hc)
  simp [isEmptyValueSt, this]

theorem isEmptyValueCl_of_all_space {s : JSString} (hs : s.all isJsSpace = true) :
    isEmptyValueCl (some s) = true := by
  have := jsTrim_eq_nil_of_all (fun c hc => List.all_eq_true.mp hs c hc)
  simp [isEmptyValueCl, this]

/-! ## Claim C6 -/

/-- C6 (corrected): the claim holds in full for the cleaner's
`testRegexMatch` (`src/cleaner.js`): `null`/`undefined` values, the empty
string, the literal tokens `'null'`, `'NaN'`, `'nan'`, `'undefined'`,
and all-whitespace strings are valid regardless of the regex and of the
engine, and an uncompilable regex validates every value (fail-open, both
copies).  For the stitcher's `testRegexMatch` (`part_002`) the same holds
EXCEPT for the literal token `'null'`, which is missing from that file's
`isEmptyValue` set (the counterexample shows `'null'` failing a digits regex
there and counting as invalid, not empty).  The final conjunct is the
counting half: in `validateDataAgainstRegex`'s row loop, a value that is
empty in the stitcher's sense increments `emptyCount` and `validCount`
together. -/
theorem claim_C6_empty_always_valid (compile : RegexEngine) (regex : JSString)
    (s : JSString) (hs : s.all isJsSpace = true)
    (compile2 : RegexEngine) (regex2 : JSString) (v2 : Option JSString)
    (hfail : compile2 regex2 = none) :
    testRegexMatchCl compile none regex = true ∧
    testRegexMatchCl compile (some []) regex = true ∧
    testRegexMatchCl compile (some (jstr "null")) regex = true ∧
    testRegexMatchCl compile (some (jstr "NaN")) regex = true ∧
    testRegexMatchCl compile (some (jstr "nan")) regex = true ∧
    testRegexMatchCl compile (some (jstr "undefined")) regex = true ∧
    testRegexMatchCl compile (some s) regex = true ∧
    testRegexMatchSt compile none regex = true ∧
    testRegexMatchSt compile (some []) regex = true ∧
    testRegexMatchSt compile (some (jstr "NaN")) regex = true ∧
    testRegexMatchSt compile (some (jstr "nan")) regex = true ∧
    testRegexMatchSt compile (some (jstr "undefined")) regex = true ∧
    testRegexMatchSt compile (some s) regex = true ∧
    testRegexMatchSt compile2 v2 regex2 = true ∧
    testRegexMatchCl compile2 v2 regex2 = true ∧
    (∀ (ch reg : JSString) (st : ValStats) (i : Nat) (row : Row),
      isEmptyValueSt (objGet row ch) = true →
      valStep compile ch reg st (i, row)
        = ⟨st.validCount + 1, st.invalidCount, st.emptyCount + 1,
            st.invalidRows⟩) := by
  refine ⟨testRegexMatchCl_of_empty _ _ _ (by decide),
    testRegexMatchCl_of_empty _ _ _ (by decide),
    testRegexMatchCl_of_empty _ _ _ (by decide),
    testRegexMatchCl_of_empty _ _ _ (by decide),
    testRegexMatchCl_of_empty _ _ _ (by decide),
    testRegexMatchCl_of_empty _ _ _ (by decide),
    testRegexMatchCl_of_empty _ _ _ (isEmptyValueCl_of_all_space hs),
    testRegexMatchSt_of_empty _ _ _ (by decide),
    testRegexMatchSt_of_empty _ _ _ (by decide),
    testRegexMatchSt_of_empty _ _ _ (by decide),
    testRegexMatchSt_of_empty _ _ _ (by decide),
    testRegexMatchSt_of_empty _ _ _ (by decide),
    testRegexMatchSt_of_empty _ _ _ (isEmptyValueSt_of_all_space hs),
    testRegexMatchSt_failopen _ _ _ hfail,
    testRegexMatchCl_failopen _ _ _ hfail, ?_⟩
  intro ch reg st i row h
  unfold valStep
  rw [if_pos h]

/-- Witness for C6: an always-failing engine on the pattern `^a$`, the
whitespace value `"  "`, and a `none`-compiling engine on the malformed
pattern `x(`, with a concrete `valStep` counting instance. -/
theorem claim_C6_witness :
    testRegexMatchCl (fun _ => some (fun _ => false)) (some (jstr "null"))
      (jstr "^a$") = true ∧
    testRegexMatchSt (fun _ => some (fun _ => false)) (some (jstr "  "))
      (jstr "^a$") = true ∧
    testRegexMatchSt (fun _ => none) (some (jstr "zz")) (jstr "x(") = true ∧
    valStep (fun _ => some (fun _ => false)) (jstr "c") (jstr "^a$")
      ⟨0, 0, 0, []⟩ (0, [(jstr "c", jstr "")])
      = ⟨1, 0, 1, []⟩ := by
  have h := claim_C6_empty_always_valid (fun _ => some (fun _ => false))
    (jstr "^a$") (jstr "  ") (by decide) (fun _ => none) (jstr "x(")
    (some (jstr "zz")) rfl
  refine ⟨h.2.2.1, h.2.2.2.2.2.2.2.2.2.2.2.2.1, h.2.2.2.2.2.2.2.2.2.2.2.2.2.1, ?_⟩
  exact (h.2.2.2.2.2.2.2.2.2.2.2.2.2.2.2 (jstr "c") (jstr "^a$") ⟨0, 0, 0, []⟩ 0
    [(jstr "c", jstr "")] (by decide)).trans (by decide)

/-- Counterexample to C6 as frozen: the claim includes the literal token
`'null'` and cites the stitcher's `testRegexMatch` (`part_002`, lines
299–325).  There `'null'` is NOT an empty sentinel: against the regex
`^\d+$` (whose JS behaviour on these inputs `engineDigits` reproduces:
`/^\d+$/.test('null') === false`) the stitcher's `testRegexMatch` returns
invalid, and in the row loop the value counts as invalid, not empty. -/
theorem claim_C6_counterexample :
    isEmptyValueSt (some (jstr "null")) = false ∧
    testRegexMatchSt engineDigits (some (jstr "null")) (jstr "^\x5cd+$") = false ∧
    testRegexMatchCl engineDigits (some (jstr "null")) (jstr "^\x5cd+$") = true ∧
    (validateColumn engineDigits [[(jstr "c", jstr "null")]] (jstr "c")
      (jstr "^\x5cd+$")).emptyCount = 0 ∧
    (validateColumn engineDigits [[(jstr "c", jstr "null")]] (jstr "c")
      (jstr "^\x5cd+$")).invalidCount = 1 := by
  refine ⟨by decide, by decide, by decide, by decide, by decide⟩

/-! ## Claim C10 support -/

theorem validate_fold_inv (compile : RegexEngine) (ch reg : JSString) (R : Nat) :
    ∀ (l : List (Nat × Row)) (k : Nat) (st : ValStats),
      (∀ p ∈ l, p.1 + 1 ≤ R) → ValInv R k st →
      ValInv R (k + l.length) (l.foldl (valStep compile ch reg) st) := by
  intro l
  induction l with
  | nil => intro k st _ hinv; simpa using hinv
  | cons p rest ih =>
    intro k st hb hinv
    obtain ⟨h1, h2, h3, h4⟩ := hinv
    rw [List.foldl_cons]
    have hstep : ValInv R (k + 1) (valStep compile ch reg st p) := by
      unfold valStep
      by_cases he : isEmptyValueSt (objGet p.2 ch) = true
      · rw [if_pos he]
        exact ⟨by simp; omega, by simp; omega, by simpa using h3, by simpa using h4⟩
      · rw [if_neg he]
        by_cases hm : testRegexMatchSt compile (objGet p.2 ch) reg = true
        · rw [if_pos hm]
          exact ⟨by simp; omega, by simp; omega, by simpa using h3, by simpa using h4⟩
        · rw [if_neg hm]
          refine ⟨by simp; omega, by simpa using h2, by simp [h3], ?_⟩
          intro q hq
          simp only [List.mem_append, List.mem_singleton] at hq
          rcases hq with hq | rfl
          · exact h4 q hq
          · have := hb p (List.mem_cons_self _ _)
            simp only
            omega
    have := ih (k + 1) (valStep compile ch reg st p)
      (fun q hq => hb q (List.mem_cons_of_mem _ hq)) hstep
    simpa [Nat.add_assoc, Nat.add_comm 1 rest.length] using this

theorem mem_enum_lt {α : Type} (l : List α) (p : Nat × α) (h : p ∈ l.enum) :
    p.1 < l.length := by
  have := mem_enumFrom_lt l 0 p h
  omega

theorem validateColumn_inv (compile : RegexEngine) (data : Dataset)
    (ch reg : JSString) :
    ValInv data.length data.length (validateColumn compile data ch reg) := by
  have h := validate_fold_inv compile ch reg data.length data.enum 0 ⟨0, 0, 0, []⟩
    (fun p hp => by have := mem_enum_lt data p hp; omega)
    ⟨by simp, by simp, by simp, by simp⟩
  unfold validateColumn
  simpa [List.enum_length] using h

/-! ## Claim C10 -/

/-- C10 (confirmed): every per-column result produced by
`validateDataAgainstRegex` satisfies
`validCount + invalidCount = R` (the dataset row count, also its
`totalCount`), `emptyCount ≤ validCount`, `invalidRows` has exactly
`invalidCount` entries, and every recorded invalid rowId lies in `1..R`. -/
theorem claim_C10_validation_invariants (compile : RegexEngine) (data : Dataset)
    (columnMapping : Obj MapEntry) (cn : JSString) (res : ValResult)
    (hmem : (cn, res) ∈ validateDataAgainstRegex compile data columnMapping) :
    res.validCount + res.invalidCount = data.length ∧
    res.totalCount = data.length ∧
    res.emptyCount ≤ res.validCount ∧
    res.invalidRows.length = res.invalidCount ∧
    ∀ p ∈ res.invalidRows, 1 ≤ p.1 ∧ p.1 ≤ data.length := by
  have main : ∀ (mapping : Obj MapEntry) (acc : Obj ValResult),
      (∀ q ∈ acc,
        q.2.validCount + q.2.invalidCount = data.length ∧
        q.2.totalCount = data.length ∧
        q.2.emptyCount ≤ q.2.validCount ∧
        q.2.invalidRows.length = q.2.invalidCount ∧
        ∀ p ∈ q.2.invalidRows, 1 ≤ p.1 ∧ p.1 ≤ data.length) →
      ∀ q ∈ mapping.foldl
        (fun results p =>
          let info := p.2
          if info.isExcluded then results
          else if info.regex = jstr "^.*$" then results
          else if 1 ≤ info.index ∧ info.index - 1
              < (objKeys (data.headD [])).length then
            let columnHeader := (objKeys (data.headD [])).getD (info.index - 1) []
            let st := validateColumn compile data columnHeader info.regex
            objSet results info.name
              { originalColumnName := p.1
                columnHeader := columnHeader
                regex := info.regex
                totalCount := data.length
                validCount := st.validCount
                invalidCount := st.invalidCount
                emptyCount := st.emptyCount
                invalidRows := st.invalidRows }
          else results) acc,
        q.2.validCount + q.2.invalidCount = data.length ∧
        q.2.totalCount = data.length ∧
        q.2.emptyCount ≤ q.2.validCount ∧
        q.2.invalidRows.length = q.2.invalidCount ∧
        ∀ p ∈ q.2.invalidRows, 1 ≤ p.1 ∧ p.1 ≤ data.length := by
    intro mapping
    induction mapping with
    | nil => intro acc hacc q hq; exact hacc q hq
    | cons e rest ih =>
      intro acc hacc q hq
      rw [List.foldl_cons] at hq
      refine ih _ ?_ q hq
      intro q' hq'
      by_cases h1 : e.2.isExcluded
      · simp only [if_pos h1] at hq'
        exact hacc q' hq'
      · simp only [if_neg h1] at hq'
        by_cases h2 : e.2.regex = jstr "^.*$"
        · simp only [if_pos h2] at hq'
          exact hacc q' hq'
        · simp only [if_neg h2] at hq'
          by_cases h3 : 1 ≤ e.2.index ∧ e.2.index - 1
              < (objKeys (data.headD [])).length
          · simp only [if_pos h3] at hq'
            obtain ⟨qk, qv⟩ := q'
            rcases mem_objSet hq' with hin | heq
            · exact hacc _ hin
            · obtain ⟨hinv1, hinv2, hinv3, hinv4⟩ := validateColumn_inv compile
                data ((objKeys (data.headD [])).getD (e.2.index - 1) []) e.2.regex
              rw [Prod.mk.injEq] at heq
              rw [heq.2]
              exact ⟨hinv1, rfl, hinv2, hinv3, hinv4⟩
          · simp only [if_neg h3] at hq'
            exact hacc q' hq'
  exact main columnMapping [] (by simp) (cn, res) hmem

/-- Witness for C10: one mapped column with regex `^x$` (engine: never
matches) over one row with value `"y"` — one invalid row, counts balancing. -/
theorem claim_C10_witness :
    (⟨jstr "A", jstr "A", jstr "^x$", 1, 0, 1, 0,
        [(1, jstr "y")]⟩ : ValResult).validCount
      + (⟨jstr "A", jstr "A", jstr "^x$", 1, 0, 1, 0,
        [(1, jstr "y")]⟩ : ValResult).invalidCount = 1 ∧
    (1 ≤ (1 : Nat) ∧ (1 : Nat) ≤ 1) := by
  have h := claim_C10_validation_invariants (fun _ => some (fun _ => false))
    [[(jstr "A", jstr "y")]]
    [(jstr "A", ⟨jstr "A", false, false, 1, [], [], [], jstr "^x$"⟩)]
    (jstr "A") ⟨jstr "A", jstr "A", jstr "^x$", 1, 0, 1, 0, [(1, jstr "y")]⟩
    (by decide)
  exact ⟨h.1, h.2.2.2.2 (1, jstr "y") (by decide)⟩

/-! ## Claim C9 support -/

theorem testRegexMatchSt_empty_regex (compile : RegexEngine) (v : Option JSString) :
    testRegexMatchSt compile v [] = true := by
  unfold testRegexMatchSt
  rw [if_pos (Or.inl rfl)]

theorem validateColumn_empty_regex_fold (compile : RegexEngine) (ch : JSString) :
    ∀ (l : List (Nat × Row)) (st : ValStats),
      (l.foldl (valStep compile ch []) st).invalidCount = st.invalidCount ∧
      (l.foldl (valStep compile ch []) st).invalidRows = st.invalidRows := by
  intro l
  induction l with
  | nil => intro st; exact ⟨rfl, rfl⟩
  | cons p rest ih =>
    intro st
    rw [List.foldl_cons]
    have hstep : (valStep compile ch [] st p).invalidCount = st.invalidCount ∧
        (valStep compile ch [] st p).invalidRows = st.invalidRows := by
      unfold valStep
      by_cases he : isEmptyValueSt (objGet p.2 ch) = true
      · rw [if_pos he]
        exact ⟨rfl, rfl⟩
      · rw [if_neg he, if_pos (testRegexMatchSt_empty_regex compile (objGet p.2 ch))]
        exact ⟨rfl, rfl⟩
    obtain ⟨ih1, ih2⟩ := ih (valStep compile ch [] st p)
    exact ⟨ih1.trans hstep.1, ih2.trans hstep.2⟩

theorem irmPairs_nil {pv : Obj ValResult} (hpv : ∀ p ∈ pv, p.2.invalidRows = []) :
    irmPairs pv = [] := by
  unfold irmPairs
  induction pv with
  | nil => rfl
  | cons e rest ih =>
    rw [List.map_cons, List.flatten_cons, hpv e (List.mem_cons_self _ _),
      List.map_nil, List.nil_append]
    exact ih (fun p hp => hpv p (List.mem_cons_of_mem _ hp))

theorem updateFlags_nil : ∀ allCh : List ChangeInfo, updateFlags [] allCh = allCh := by
  intro l
  induction l with
  | nil => rfl
  | cons c t ih =>
    unfold updateFlags at *
    rw [List.map_cons, ih]
    rfl

/-! ## Claim C9 -/

/-- C9 (confirmed): a mapping entry whose regex string is empty — in
particular every synthetic `UNMAPPED_<i>` entry, built with `regex = ''`
rather than the documented catch-all `'^.*$'` — behaves like a no-contract
column: the stitcher's `testRegexMatch` validates every value under the empty
regex (its falsy-regex fast path, before any compilation), the per-column
validation loop under the empty regex reports zero invalid rows, and a
post-validation whose results all carry empty `invalidRows` leaves the
flagging phase a no-op (no record flagged, none synthesized). -/
theorem claim_C9_empty_regex_no_contract (compile : RegexEngine)
    (v : Option JSString) (i : Nat) (data : Dataset) (ch : JSString)
    (allChanges : List ChangeInfo) (postValidation : Obj ValResult)
    (columnMapping : Obj MapEntry) (data2 : Dataset)
    (hpv : ∀ p ∈ postValidation, p.2.invalidRows = []) :
    testRegexMatchSt compile v [] = true ∧
    (unmappedEntry i).regex = [] ∧
    (validateColumn compile data ch []).invalidCount = 0 ∧
    (validateColumn compile data ch []).invalidRows = [] ∧
    flagChanges allChanges postValidation columnMapping data2 = allChanges := by
  have hirm : invalidRowMap postValidation = [] := by
    unfold invalidRowMap
    rw [irmPairs_nil hpv]
    rfl
  refine ⟨testRegexMatchSt_empty_regex compile v, rfl, ?_, ?_, ?_⟩
  · exact (validateColumn_empty_regex_fold compile ch data.enum ⟨0, 0, 0, []⟩).1
  · exact (validateColumn_empty_regex_fold compile ch data.enum ⟨0, 0, 0, []⟩).2
  · unfold flagChanges
    dsimp only
    rw [hirm, updateFlags_nil]
    rw [show synthesized [] (allChanges.map (fun ci => encodeKey ci.rowId
      ci.columnName)) columnMapping data2 = [] from rfl]
    simp

/-- Witness for C9: a concrete engine that rejects everything, an `UNMAPPED_3`
entry, a one-row dataset, and a post-validation result with no invalid rows:
every conjunct of the theorem instantiated and evaluated. -/
theorem claim_C9_witness :
    testRegexMatchSt (fun _ => some (fun _ => false)) (some (jstr "anything"))
      [] = true ∧
    (unmappedEntry 3).regex = [] ∧
    (validateColumn (fun _ => some (fun _ => false)) [[(jstr "c", jstr "v")]]
      (jstr "c") []).invalidCount = 0 ∧
    (validateColumn (fun _ => some (fun _ => false)) [[(jstr "c", jstr "v")]]
      (jstr "c") []).invalidRows = [] ∧
    flagChanges [⟨jstr "f", jstr "c", jstr "c", 0, 1, jstr "v", jstr "v",
        false, [], false, false⟩]
      [(jstr "c", ⟨jstr "c", jstr "c", jstr "^v$", 1, 1, 0, 0, []⟩)] [] []
      = [⟨jstr "f", jstr "c", jstr "c", 0, 1, jstr "v", jstr "v",
        false, [], false, false⟩] :=
  claim_C9_empty_regex_no_contract (fun _ => some (fun _ => false))
    (some (jstr "anything")) 3 [[(jstr "c", jstr "v")]] (jstr "c")
    [⟨jstr "f", jstr "c", jstr "c", 0, 1, jstr "v", jstr "v", false, [],
      false, false⟩]
    [(jstr "c", ⟨jstr "c", jstr "c", jstr "^v$", 1, 1, 0, 0, []⟩)] [] []
    (by decide)

/-! ## Claim C8 support -/

theorem invalidRowMap_eq_pairs {pv : Obj ValResult}
    (hnd : ((irmPairs pv).map Prod.fst).Nodup) :
    invalidRowMap pv = irmPairs pv := by
  unfold invalidRowMap
  rw [foldl_objSet_eq_append (irmPairs pv) [] (by simpa [objKeys] using hnd)]
  simp

theorem mem_irmPairs {pv : Obj ValResult} {cn : JSString} {res : ValResult}
    {rid : Nat} {v : JSString} (hmem : (cn, res) ∈ pv)
    (hinv : (rid, v) ∈ res.invalidRows) :
    (encodeKey rid cn, (v, mkReason v res.regex)) ∈ irmPairs pv := by
  unfold irmPairs
  rw [List.mem_flatten]
  refine ⟨res.invalidRows.map (fun ir =>
    (encodeKey ir.1 cn, (ir.2, mkReason ir.2 res.regex))), ?_, ?_⟩
  · exact List.mem_map.mpr ⟨(cn, res), hmem, rfl⟩
  · exact List.mem_map.mpr ⟨(rid, v), hinv, rfl⟩

theorem synth_fold_acc_sub (lk : List JSString) (mp : Obj MapEntry) (d : Dataset) :
    ∀ (l : List (JSString × (JSString × JSString))) (acc : List ChangeInfo)
      (x : ChangeInfo), x ∈ acc → x ∈ l.foldl (synthStep lk mp d) acc := by
  intro l
  induction l with
  | nil => intro acc x hx; exact hx
  | cons e rest ih =>
    intro acc x hx
    rw [List.foldl_cons]
    apply ih
    unfold synthStep
    rcases synthOne lk mp d e.1 e.2 with _ | r
    · exact hx
    · exact List.mem_append_left _ hx

theorem mem_synth_fold (lk : List JSString) (mp : Obj MapEntry) (d : Dataset)
    {r : ChangeInfo} :
    ∀ (l : List (JSString × (JSString × JSString))) (acc : List ChangeInfo)
      (e : JSString × (JSString × JSString)), e ∈ l →
      synthOne lk mp d e.1 e.2 = some r → r ∈ l.foldl (synthStep lk mp d) acc := by
  intro l
  induction l with
  | nil => intro acc e he; simp at he
  | cons p rest ih =>
    intro acc e he hso
    rw [List.foldl_cons]
    rcases List.mem_cons.mp he with rfl | he'
    · apply synth_fold_acc_sub
      unfold synthStep
      rw [hso]
      exact List.mem_append_right _ (List.mem_singleton.mpr rfl)
    · exact ih _ e he' hso

theorem synthOne_spec (lk : List JSString) (mp : Obj MapEntry) (d : Dataset)
    (rid : Nat) (cn v reason : JSString) (cidx : Nat)
    (hnotin : encodeKey rid cn ∉ lk) (hcol : ':' ∉ cn)
    (hfind : findColumnIndexByNewName mp cn = some cidx) :
    synthOne lk mp d (encodeKey rid cn) (v, reason)
      = some ⟨jstr "N/A (Regex Validation)", cn,
          (objKeys (d.headD [])).getD cidx [], cidx, rid, v, v, true, reason,
          false, true⟩ := by
  unfold synthOne
  rw [if_neg hnotin]
  dsimp only
  rw [splitOnChar_encodeKey, splitOnChar_not_mem hcol]
  simp only [List.getD_cons_zero, List.getD_cons_succ]
  rw [hfind, jsParseInt_natToChars]

/-! ## Claim C8 -/

/-- C8 (corrected): with the generated `rowId:columnName` keys of the
post-validation's invalid cells duplicate-free (true when column names are
distinct and per-column invalid rowIds are distinct, as produced by the
validator), for every post-correction invalid `(rid, cn)` cell with value `v`
under regex `res.regex`:
(1) every already-recorded change for that cell appears in the flagging
    phase's output updated with `isFlagged = true`, `unableToFix = true` and
    `flagReason = "Value '<v>' does not match regex: <r>"` — note the capital
    `V`, where the claim says lowercase `"value '<v>' ..."`;
(2) if no change was recorded for that cell, a record with
    `needsChange = false, isFlagged = true, unableToFix = true` is
    synthesized — PROVIDED the column name contains no `':'` (the key is
    recovered by `split(':')`, which truncates such names) and the name
    resolves in the mapping (`findColumnIndexByNewName` is not `-1`);
(3) a recorded change whose cell is not in the invalid-row map passes through
    the flagging phase unchanged (no record for a post-correction valid cell
    is flagged). -/
theorem claim_C8_flagging (allChanges : List ChangeInfo)
    (postValidation : Obj ValResult) (columnMapping : Obj MapEntry)
    (data : Dataset) (cn : JSString) (res : ValResult) (rid : Nat) (v : JSString)
    (hmem : (cn, res) ∈ postValidation)
    (hinv : (rid, v) ∈ res.invalidRows)
    (hnd : ((irmPairs postValidation).map Prod.fst).Nodup) :
    (∀ ci ∈ allChanges, ci.rowId = rid → ci.columnName = cn →
      (⟨ci.filename, ci.columnName, ci.columnHeader, ci.columnIndex, ci.rowId,
        ci.currentValue, ci.correctedValue, true, mkReason v res.regex,
        ci.needsChange, true⟩ : ChangeInfo)
        ∈ flagChanges allChanges postValidation columnMapping data) ∧
    ((∀ ci ∈ allChanges, ¬ (ci.rowId = rid ∧ ci.columnName = cn)) →
      ':' ∉ cn →
      ∀ cidx, findColumnIndexByNewName columnMapping cn = some cidx →
      (⟨jstr "N/A (Regex Validation)", cn, (objKeys (data.headD [])).getD cidx [],
        cidx, rid, v, v, true, mkReason v res.regex, false, true⟩ : ChangeInfo)
        ∈ flagChanges allChanges postValidation columnMapping data) ∧
    (∀ ci ∈ allChanges,
      objGet (invalidRowMap postValidation) (encodeKey ci.rowId ci.columnName)
        = none →
      ci ∈ flagChanges allChanges postValidation columnMapping data) := by
  have hlookup : objGet (invalidRowMap postValidation) (encodeKey rid cn)
      = some (v, mkReason v res.regex) := by
    rw [invalidRowMap_eq_pairs hnd]
    exact objGet_eq_of_mem_nodup (by simpa [objKeys] using hnd)
      (mem_irmPairs hmem hinv)
  refine ⟨?_, ?_, ?_⟩
  · intro ci hci h1 h2
    unfold flagChanges
    apply List.mem_append_left
    unfold updateFlags
    apply List.mem_map.mpr
    refine ⟨ci, hci, ?_⟩
    rw [h1, h2, hlookup]
  · intro hnolog hcol cidx hfind
    unfold flagChanges
    apply List.mem_append_right
    have hnotin : encodeKey rid cn
        ∉ allChanges.map (fun ci => encodeKey ci.rowId ci.columnName) := by
      intro hmem'
      rcases List.mem_map.mp hmem' with ⟨ci, hci, hkey⟩
      have := encodeKey_inj hkey
      exact hnolog ci hci ⟨this.1, this.2⟩
    unfold synthesized
    refine mem_synth_fold _ _ _ (invalidRowMap postValidation) []
      (encodeKey rid cn, (v, mkReason v res.regex)) ?_ ?_
    · rw [invalidRowMap_eq_pairs hnd]
      exact mem_irmPairs hmem hinv
    · exact synthOne_spec _ _ _ rid cn v (mkReason v res.regex) cidx hnotin
        hcol hfind
  · intro ci hci hnone
    unfold flagChanges
    apply List.mem_append_left
    unfold updateFlags
    apply List.mem_map.mpr
    refine ⟨ci, hci, ?_⟩
    rw [hnone]

/-- Witness for C8: one recorded change for cell `(1, a)` and one untouched
invalid cell `(2, a)` under regex `^b$`; the theorem is applied once per
invalid cell, showing the flagged update of the recorded change and the
synthesized record (`needsChange = false`) for the untouched cell. -/
theorem claim_C8_witness :
    (⟨jstr "f", jstr "a", jstr "A", 0, 1, jstr "x", jstr "x", true,
        mkReason (jstr "x") (jstr "^b$"), false, true⟩ : ChangeInfo)
      ∈ flagChanges
        [⟨jstr "f", jstr "a", jstr "A", 0, 1, jstr "x", jstr "x", false, [],
          false, false⟩]
        [(jstr "a", ⟨jstr "A", jstr "A", jstr "^b$", 2, 0, 2, 0,
          [(1, jstr "x"), (2, jstr "x2")]⟩)]
        [(jstr "A", ⟨jstr "a", false, false, 1, [], [], [], jstr "^b$"⟩)]
        [[(jstr "A", jstr "x")]] ∧
    (⟨jstr "N/A (Regex Validation)", jstr "a", jstr "A", 0, 2, jstr "x2",
        jstr "x2", true, mkReason (jstr "x2") (jstr "^b$"), false, true⟩ : ChangeInfo)
      ∈ flagChanges
        [⟨jstr "f", jstr "a", jstr "A", 0, 1, jstr "x", jstr "x", false, [],
          false, false⟩]
        [(jstr "a", ⟨jstr "A", jstr "A", jstr "^b$", 2, 0, 2, 0,
          [(1, jstr "x"), (2, jstr "x2")]⟩)]
        [(jstr "A", ⟨jstr "a", false, false, 1, [], [], [], jstr "^b$"⟩)]
        [[(jstr "A", jstr "x")]] := by
  have h1 := claim_C8_flagging
    [⟨jstr "f", jstr "a", jstr "A", 0, 1, jstr "x", jstr "x", false, [],
      false, false⟩]
    [(jstr "a", ⟨jstr "A", jstr "A", jstr "^b$", 2, 0, 2, 0,
      [(1, jstr "x"), (2, jstr "x2")]⟩)]
    [(jstr "A", ⟨jstr "a", false, false, 1, [], [], [], jstr "^b$"⟩)]
    [[(jstr "A", jstr "x")]] (jstr "a")
    ⟨jstr "A", jstr "A", jstr "^b$", 2, 0, 2, 0, [(1, jstr "x"), (2, jstr "x2")]⟩
    1 (jstr "x") (by decide) (by decide) (by decide)
  have h2 := claim_C8_flagging
    [⟨jstr "f", jstr "a", jstr "A", 0, 1, jstr "x", jstr "x", false, [],
      false, false⟩]
    [(jstr "a", ⟨jstr "A", jstr "A", jstr "^b$", 2, 0, 2, 0,
      [(1, jstr "x"), (2, jstr "x2")]⟩)]
    [(jstr "A", ⟨jstr "a", false, false, 1, [], [], [], jstr "^b$"⟩)]
    [[(jstr "A", jstr "x")]] (jstr "a")
    ⟨jstr "A", jstr "A", jstr "^b$", 2, 0, 2, 0, [(1, jstr "x"), (2, jstr "x2")]⟩
    2 (jstr "x2") (by decide) (by decide) (by decide)
  refine ⟨?_, ?_⟩
  · exact h1.1 _ (List.mem_singleton.mpr rfl) rfl rfl
  · exact h2.2.1 (by decide) (by decide) 0 (by decide)

/-- Counterexample to C8 as frozen, two independent divergences:
(1) the recorded change for invalid cell `(1, a)` receives flagReason
`"Value 'x' does not match regex: ^b$"` — capital `V` — not the claim's
`"value 'x' does not match regex: ^b$"`;
(2) for a column whose semantic name contains a colon (`a:b`), an invalid
cell the cleaner never touched gets NO synthesized ChangeRecord at all:
`key.split(':')` truncates the name to `a`, which has no mapping entry, and
the synthesis `continue`s — the output ledger stays empty. -/
theorem claim_C8_counterexample :
    ((flagChanges
        [⟨jstr "f", jstr "a", jstr "A", 0, 1, jstr "x", jstr "x", false, [],
          false, false⟩]
        [(jstr "a", ⟨jstr "A", jstr "A", jstr "^b$", 1, 0, 1, 0,
          [(1, jstr "x")]⟩)]
        [(jstr "A", ⟨jstr "a", false, false, 1, [], [], [], jstr "^b$"⟩)]
        [[(jstr "A", jstr "x")]]).getD 0 default).flagReason
      = jstr "Value \x27x\x27 does not match regex: ^b$" ∧
    ((flagChanges
        [⟨jstr "f", jstr "a", jstr "A", 0, 1, jstr "x", jstr "x", false, [],
          false, false⟩]
        [(jstr "a", ⟨jstr "A", jstr "A", jstr "^b$", 1, 0, 1, 0,
          [(1, jstr "x")]⟩)]
        [(jstr "A", ⟨jstr "a", false, false, 1, [], [], [], jstr "^b$"⟩)]
        [[(jstr "A", jstr "x")]]).getD 0 default).flagReason
      ≠ jstr "value \x27x\x27 does not match regex: ^b$" ∧
    flagChanges []
        [(jstr "a:b", ⟨jstr "A", jstr "A", jstr "^b$", 1, 0, 1, 0,
          [(1, jstr "x")]⟩)]
        [(jstr "A", ⟨jstr "a:b", false, false, 1, [], [], [], jstr "^b$"⟩)]
        [[(jstr "A", jstr "x")]]
      = [] := by
  refine ⟨by decide, by decide, by decide⟩
